import Mathlib

/-!
Verification of the MicroLog structured logging library against its design
specification.  The Python sources under `src/microlog/` are shallowly
embedded: pure methods become Lean functions, the two effectful primitives of
`context.py` (`_generate_id`, `_now_iso`) become explicit parameters holding
the value they returned, and the rotating file sink's on-disk state becomes an
explicit state value.
-/

namespace Microlog

/-! ## Trace context model (`src/microlog/context.py`) -/

/-- Python truthiness of an `Optional[str]` value: `None` and the empty string
are falsy, every other string is truthy (`if self.correlation_id:`). -/
def truthy : Option String → Bool
  | none => false
  | some s => !s.isEmpty

/-- Embedding of the dataclass `TraceContext` (context.py).  `extra` is
`Dict[str, Any]` in the source; values are modelled as strings (the claims
under study only inspect keys). -/
structure TraceContext where
  trace_id : String
  span_id : String
  parent_span_id : Option String := none
  correlation_id : Option String := none
  session_id : Option String := none
  started_at : String := ""
  extra : List (String × String) := []
  deriving Repr, DecidableEq

/-- `TraceContext.child_span` (context.py).  `gen` is the value returned by
`_generate_id()` for the fresh span id, `now` the value of `_now_iso()` used
by the `started_at` default factory. -/
def TraceContext.child_span (c : TraceContext) (gen now : String) : TraceContext :=
  { trace_id := c.trace_id
    span_id := gen
    parent_span_id := some c.span_id
    correlation_id := c.correlation_id
    session_id := c.session_id
    started_at := now
    extra := c.extra }

/-- Insert-or-replace on an insertion-ordered string dictionary, the effect of
`d[key] = v` on a Python `dict`. -/
def dictUpsert (d : List (String × String)) (key v : String) : List (String × String) :=
  if d.any (fun kv => kv.1 == key) then
    d.map (fun kv => if kv.1 == key then (key, v) else kv)
  else
    d ++ [(key, v)]

/-- `result.update(extra)` on an insertion-ordered Python dictionary. -/
def dictUpdate (d e : List (String × String)) : List (String × String) :=
  e.foldl (fun acc kv => dictUpsert acc kv.1 kv.2) d

/-- `TraceContext.to_dict` (context.py): mandatory `trace_id`/`span_id` keys,
optional keys added only when the field is truthy, then `result.update(self.extra)`. -/
def TraceContext.to_dict (c : TraceContext) : List (String × String) :=
  dictUpdate
    ([("trace_id", c.trace_id), ("span_id", c.span_id)]
      ++ (if truthy c.parent_span_id then [("parent_span_id", c.parent_span_id.getD "")] else [])
      ++ (if truthy c.correlation_id then [("correlation_id", c.correlation_id.getD "")] else [])
      ++ (if truthy c.session_id then [("session_id", c.session_id.getD "")] else []))
    c.extra

/-- `TraceContext.headers` (context.py): the outbound propagation carrier.
Keys are exactly as written in the source (`"X-Trace-ID"`, ``"X-Span-ID"``,
optional keys only when truthy). -/
def TraceContext.headers (c : TraceContext) : List (String × String) :=
  [("X-Trace-ID", c.trace_id), ("X-Span-ID", c.span_id)]
    ++ (if truthy c.parent_span_id then [("X-Parent-Span-ID", c.parent_span_id.getD "")] else [])
    ++ (if truthy c.correlation_id then [("X-Correlation-ID", c.correlation_id.getD "")] else [])
    ++ (if truthy c.session_id then [("X-Session-ID", c.session_id.getD "")] else [])

/-- `TraceContext.from_headers` (context.py).  `headers.get(k)` is a plain,
case-sensitive Python dictionary lookup.  `genTrace` is the `_generate_id()`
value used as the default for a missing `"X-Trace-ID"` key, `gen` the
`_generate_id()` value for the new span id, and `now` the `_now_iso()` value
of the `started_at` default factory. -/
def TraceContext.from_headers (headers : List (String × String))
    (genTrace gen now : String) : TraceContext :=
  { trace_id := (headers.lookup "X-Trace-ID").getD genTrace
    span_id := gen
    parent_span_id := headers.lookup "X-Span-ID"
    correlation_id := headers.lookup "X-Correlation-ID"
    session_id := headers.lookup "X-Session-ID"
    started_at := now
    extra := [] }

/-- The keyword arguments accepted by `trace.__init__` (context.py). -/
structure TraceArgs where
  trace_id : Option String := none
  correlation_id : Option String := none
  session_id : Option String := none
  headers : Option (List (String × String)) := none
  parent : Option TraceContext := none
  extra : List (String × String) := []
  deriving Repr

/-- Python truthiness of the `headers` argument of `trace.__init__`
(`if headers:`): `None` and the empty dictionary are falsy. -/
def headersTruthy : Option (List (String × String)) → Bool
  | none => false
  | some l => !l.isEmpty

/-- The `correlation_id`/`session_id` overrides and `extra` update that
`trace.__init__` applies after building a context from headers or from a
parent. -/
def applyOverrides (a : TraceArgs) (c : TraceContext) : TraceContext :=
  let c := if truthy a.correlation_id then { c with correlation_id := a.correlation_id } else c
  let c := if truthy a.session_id then { c with session_id := a.session_id } else c
  { c with extra := dictUpdate c.extra a.extra }

/-- `trace.__init__` (context.py): the context selected by the scoped
acquisition primitive.  The source tests `if headers:` first, `elif parent:`
second, and otherwise builds a fresh root context.  `genTrace`, `gen` and
`now` are the values produced by `_generate_id()` / `_now_iso()` during the
call. -/
def trace_init (a : TraceArgs) (genTrace gen now : String) : TraceContext :=
  if headersTruthy a.headers then
    applyOverrides a (TraceContext.from_headers (a.headers.getD []) genTrace gen now)
  else
    match a.parent with
    | some p => applyOverrides a (p.child_span gen now)
    | none =>
        { trace_id := if truthy a.trace_id then a.trace_id.getD "" else genTrace
          span_id := gen
          parent_span_id := none
          correlation_id := a.correlation_id
          session_id := a.session_id
          started_at := now
          extra := a.extra }

/-! ## Lemmas about the carrier built by `TraceContext.headers` -/

theorem truthy_getD (o : Option String) (h : truthy o = true) : some (o.getD "") = o := by
  cases o with
  | none => simp [truthy] at h
  | some s => rfl

theorem eq_none_of_not_truthy (o : Option String) (h : truthy o = false)
    (hne : o ≠ some "") : o = none := by
  cases o with
  | none => rfl
  | some s =>
    exfalso
    simp [truthy] at h
    exact hne (by rw [(String.isEmpty_iff s).mp h])

theorem lookup_eq_none_of_keys (k : String) (l : List (String × String))
    (h : ∀ kv ∈ l, kv.1 ≠ k) : l.lookup k = none := by
  induction l with
  | nil => rfl
  | cons kv rest ih =>
    have hk : (k == kv.1) = false := by
      have := h kv (List.mem_cons_self kv rest)
      simp [beq_iff_eq]
      exact fun hh => this hh.symm
    simp [List.lookup, hk]
    intro a b hm hak
    have := h (a, b) (List.mem_cons_of_mem kv hm)
    simp at this
    exact this hak.symm

theorem headers_lookup_trace (c : TraceContext) :
    c.headers.lookup "X-Trace-ID" = some c.trace_id := rfl

theorem headers_lookup_span (c : TraceContext) :
    c.headers.lookup "X-Span-ID" = some c.span_id := rfl

theorem headers_lookup_parent (c : TraceContext) :
    c.headers.lookup "X-Parent-Span-ID" =
      if truthy c.parent_span_id then some (c.parent_span_id.getD "") else none := by
  by_cases hp : truthy c.parent_span_id <;>
    by_cases hc : truthy c.correlation_id <;>
    by_cases hs : truthy c.session_id <;>
    simp [TraceContext.headers, List.lookup, hp, hc, hs]

theorem headers_lookup_corr (c : TraceContext) :
    c.headers.lookup "X-Correlation-ID" =
      if truthy c.correlation_id then some (c.correlation_id.getD "") else none := by
  by_cases hp : truthy c.parent_span_id <;>
    by_cases hc : truthy c.correlation_id <;>
    by_cases hs : truthy c.session_id <;>
    simp [TraceContext.headers, List.lookup, hp, hc, hs]

theorem headers_lookup_session (c : TraceContext) :
    c.headers.lookup "X-Session-ID" =
      if truthy c.session_id then some (c.session_id.getD "") else none := by
  by_cases hp : truthy c.parent_span_id <;>
    by_cases hc : truthy c.correlation_id <;>
    by_cases hs : truthy c.session_id <;>
    simp [TraceContext.headers, List.lookup, hp, hc, hs]

theorem lookup_truthy_opt (o : Option String) (hne : o ≠ some "")
    (l : Option String) (hl : l = if truthy o then some (o.getD "") else none) : l = o := by
  by_cases h : truthy o = true
  · rw [hl, if_pos h, truthy_getD o h]
  · rw [hl, if_neg h, eq_none_of_not_truthy o (by simpa using h) hne]

/-- C1: the round trip as literally claimed fails when `correlation_id` is the
empty string: the empty string is falsy, `headers()` omits the key, and
`from_headers` returns `None` for it, so the second context's
`correlation_id` differs from the first's. -/
theorem C1_counterexample :
    (TraceContext.from_headers
        (TraceContext.headers
          { trace_id := "t0", span_id := "s0", correlation_id := some "" })
        "gt0" "ns0" "now0").correlation_id ≠
      (TraceContext.correlation_id
        { trace_id := "t0", span_id := "s0", correlation_id := some "" }) := by
  decide

/-- C1 (amended): for every `TraceContext` whose `correlation_id` and
`session_id` are not the empty string, building a second context from the
first's carrier preserves `trace_id`, `correlation_id` and `session_id`, sets
`parent_span_id` to the first's `span_id`, and uses the freshly generated id
`g` as the new `span_id`; in particular the two span ids differ whenever the
fresh id does. -/
theorem C1_round_trip (c : TraceContext) (gt g now : String)
    (hco : c.correlation_id ≠ some "") (hse : c.session_id ≠ some "")
    (hg : g ≠ c.span_id) :
    (TraceContext.from_headers c.headers gt g now).trace_id = c.trace_id ∧
    (TraceContext.from_headers c.headers gt g now).correlation_id = c.correlation_id ∧
    (TraceContext.from_headers c.headers gt g now).session_id = c.session_id ∧
    (TraceContext.from_headers c.headers gt g now).parent_span_id = some c.span_id ∧
    (TraceContext.from_headers c.headers gt g now).span_id = g ∧
    (TraceContext.from_headers c.headers gt g now).span_id ≠ c.span_id := by
  refine ⟨?_, ?_, ?_, ?_, rfl, ?_⟩
  · show (c.headers.lookup "X-Trace-ID").getD gt = c.trace_id
    rw [headers_lookup_trace]
    rfl
  · exact lookup_truthy_opt c.correlation_id hco _ (headers_lookup_corr c)
  · exact lookup_truthy_opt c.session_id hse _ (headers_lookup_session c)
  · show c.headers.lookup "X-Span-ID" = some c.span_id
    exact headers_lookup_span c
  · show g ≠ c.span_id
    exact hg

theorem C1_round_trip_witness :
    (some "co" ≠ some "" ∧ (none : Option String) ≠ some "" ∧ "g1" ≠ "s1") ∧
    (TraceContext.from_headers
        (TraceContext.headers { trace_id := "t1", span_id := "s1", correlation_id := some "co" })
        "gt1" "g1" "n1").trace_id = "t1" := by
  refine ⟨⟨by decide, by decide, by decide⟩, ?_⟩
  exact (C1_round_trip { trace_id := "t1", span_id := "s1", correlation_id := some "co" }
    "gt1" "g1" "n1" (by decide) (by decide) (by decide)).1

/-- C5: the carrier keys use the capitalization `"X-Trace-ID"`, not the
claimed `"X-Trace-Id"`, and parsing is a case-sensitive dictionary lookup:
a lower-cased inbound key is not recognized, so a fresh trace id is
generated instead of the carried one. -/
theorem C5_counterexample :
    (TraceContext.headers
        { trace_id := "t", span_id := "s", parent_span_id := some "p",
          correlation_id := some "co", session_id := some "se" }).map Prod.fst =
      ["X-Trace-ID", "X-Span-ID", "X-Parent-Span-ID", "X-Correlation-ID", "X-Session-ID"] ∧
    "X-Trace-Id" ∉
      (TraceContext.headers
        { trace_id := "t", span_id := "s", parent_span_id := some "p",
          correlation_id := some "co", session_id := some "se" }).map Prod.fst ∧
    (TraceContext.from_headers [("x-trace-id", "t1")] "gt" "g" "n").trace_id = "gt" ∧
    "gt" ≠ "t1" := by
  refine ⟨rfl, by decide, rfl, by decide⟩

/-- C5 (amended): writing the carrier uses exactly the keys `"X-Trace-ID"`
and `"X-Span-ID"`, plus `"X-Parent-Span-ID"`, `"X-Correlation-ID"` and
`"X-Session-ID"` when those fields are truthy, with exactly this
capitalization; parsing is case-sensitive: a carrier none of whose keys is
one of the four exact strings read by `from_headers` is treated like an
empty carrier. -/
theorem C5_carrier_keys (c : TraceContext) (hdrs : List (String × String))
    (gt g now : String)
    (hunknown : ∀ kv ∈ hdrs,
      kv.1 ≠ "X-Trace-ID" ∧ kv.1 ≠ "X-Span-ID" ∧
      kv.1 ≠ "X-Correlation-ID" ∧ kv.1 ≠ "X-Session-ID") :
    c.headers.map Prod.fst =
      ["X-Trace-ID", "X-Span-ID"]
        ++ (if truthy c.parent_span_id then ["X-Parent-Span-ID"] else [])
        ++ (if truthy c.correlation_id then ["X-Correlation-ID"] else [])
        ++ (if truthy c.session_id then ["X-Session-ID"] else []) ∧
    TraceContext.from_headers hdrs gt g now = TraceContext.from_headers [] gt g now := by
  constructor
  · by_cases hp : truthy c.parent_span_id <;>
      by_cases hc : truthy c.correlation_id <;>
      by_cases hs : truthy c.session_id <;>
      simp [TraceContext.headers, hp, hc, hs]
  · have h1 : hdrs.lookup "X-Trace-ID" = none :=
      lookup_eq_none_of_keys _ hdrs (fun kv hm => (hunknown kv hm).1)
    have h2 : hdrs.lookup "X-Span-ID" = none :=
      lookup_eq_none_of_keys _ hdrs (fun kv hm => (hunknown kv hm).2.1)
    have h3 : hdrs.lookup "X-Correlation-ID" = none :=
      lookup_eq_none_of_keys _ hdrs (fun kv hm => (hunknown kv hm).2.2.1)
    have h4 : hdrs.lookup "X-Session-ID" = none :=
      lookup_eq_none_of_keys _ hdrs (fun kv hm => (hunknown kv hm).2.2.2)
    simp [TraceContext.from_headers, h1, h2, h3, h4, List.lookup]

theorem C5_carrier_keys_witness :
    (TraceContext.headers { trace_id := "t", span_id := "s" }).map Prod.fst =
      ["X-Trace-ID", "X-Span-ID"] ∧
    TraceContext.from_headers [("x-trace-id", "v")] "gt" "g" "n" =
      TraceContext.from_headers [] "gt" "g" "n" := by
  have h := C5_carrier_keys { trace_id := "t", span_id := "s" }
    [("x-trace-id", "v")] "gt" "g" "n" (by decide)
  exact ⟨h.1, h.2⟩

/-! ## C4: selection precedence of `trace.__init__` -/

theorem applyOverrides_trace_id (a : TraceArgs) (c : TraceContext) :
    (applyOverrides a c).trace_id = c.trace_id := by
  unfold applyOverrides
  by_cases hc : truthy a.correlation_id <;> by_cases hs : truthy a.session_id <;>
    simp [hc, hs]

theorem applyOverrides_span_id (a : TraceArgs) (c : TraceContext) :
    (applyOverrides a c).span_id = c.span_id := by
  unfold applyOverrides
  by_cases hc : truthy a.correlation_id <;> by_cases hs : truthy a.session_id <;>
    simp [hc, hs]

theorem applyOverrides_parent_span_id (a : TraceArgs) (c : TraceContext) :
    (applyOverrides a c).parent_span_id = c.parent_span_id := by
  unfold applyOverrides
  by_cases hc : truthy a.correlation_id <;> by_cases hs : truthy a.session_id <;>
    simp [hc, hs]

/-- C4: the claimed precedence is wrong about who wins when both a parent
context and a header carrier are supplied.  With parent trace id `"tp"` and a
carrier trace id `"th"`, the source's `if headers: ... elif parent:` chain
builds the context from the carrier, so the resulting trace id is `"th"`,
not the parent's `"tp"`, and the parent span id comes from the carrier's
span, not from the parent context. -/
theorem C4_counterexample :
    (trace_init
        { headers := some [("X-Trace-ID", "th"), ("X-Span-ID", "sh")],
          parent := some { trace_id := "tp", span_id := "sp" } }
        "gt" "g" "n").trace_id = "th" ∧
    "th" ≠ "tp" ∧
    (trace_init
        { headers := some [("X-Trace-ID", "th"), ("X-Span-ID", "sh")],
          parent := some { trace_id := "tp", span_id := "sp" } }
        "gt" "g" "n").parent_span_id = some "sh" ∧
    some "sh" ≠ some "sp" := by
  refine ⟨rfl, by decide, rfl, by decide⟩

/-- C4 (amended): the scoped acquisition primitive selects its context in
this order: (a) if a non-empty header carrier is supplied it extracts the
trace id from the carrier (falling back to a generated one), uses the
carrier's span id as `parent_span_id` and a freshly generated `span_id` —
so when both a parent and a carrier are supplied, the carrier wins; (b) else
if a parent context is supplied it derives the child via `child_span()`,
keeping the parent's trace id and recording the parent's span id; (c) else
it builds a fresh root context whose trace id is the explicit argument when
truthy and a generated one otherwise, with a generated span id and no
parent span. -/
theorem C4_precedence (a : TraceArgs) (gt g now : String) :
    (headersTruthy a.headers = true →
      (trace_init a gt g now).trace_id = ((a.headers.getD []).lookup "X-Trace-ID").getD gt ∧
      (trace_init a gt g now).parent_span_id = (a.headers.getD []).lookup "X-Span-ID" ∧
      (trace_init a gt g now).span_id = g) ∧
    (headersTruthy a.headers = false → ∀ p, a.parent = some p →
      (trace_init a gt g now).trace_id = p.trace_id ∧
      (trace_init a gt g now).parent_span_id = some p.span_id ∧
      (trace_init a gt g now).span_id = g) ∧
    (headersTruthy a.headers = false → a.parent = none →
      (trace_init a gt g now).trace_id =
        (if truthy a.trace_id then a.trace_id.getD "" else gt) ∧
      (trace_init a gt g now).parent_span_id = none ∧
      (trace_init a gt g now).span_id = g) := by
  refine ⟨fun hh => ?_, fun hh p hp => ?_, fun hh hp => ?_⟩
  · rw [trace_init, if_pos hh]
    exact ⟨applyOverrides_trace_id .., by
        rw [applyOverrides_parent_span_id]
        rfl,
      applyOverrides_span_id ..⟩
  · rw [trace_init, if_neg (by simp [hh]), hp]
    exact ⟨applyOverrides_trace_id .., by
        rw [applyOverrides_parent_span_id]
        rfl,
      applyOverrides_span_id ..⟩
  · rw [trace_init, if_neg (by simp [hh]), hp]
    exact ⟨rfl, rfl, rfl⟩

theorem C4_precedence_witness :
    (trace_init { headers := some [("X-Trace-ID", "th")] } "gt" "g" "n").trace_id = "th" ∧
    (trace_init { parent := some { trace_id := "tp", span_id := "sp" } }
        "gt" "g" "n").trace_id = "tp" ∧
    (trace_init { } "gt" "g" "n").trace_id = "gt" := by
  refine ⟨?_, ?_, ?_⟩
  · exact ((C4_precedence { headers := some [("X-Trace-ID", "th")] } "gt" "g" "n").1
      (by decide)).1
  · exact ((C4_precedence { parent := some { trace_id := "tp", span_id := "sp" } }
      "gt" "g" "n").2.1 (by decide) _ rfl).1
  · exact ((C4_precedence { } "gt" "g" "n").2.2 (by decide) rfl).1

/-! ## C10: truthiness of the optional fields in `to_dict` and `headers` -/

theorem mem_keys_dictUpsert (d : List (String × String)) (key v k : String) :
    k ∈ (dictUpsert d key v).map Prod.fst ↔ k ∈ d.map Prod.fst ∨ k = key := by
  unfold dictUpsert
  by_cases h : d.any (fun kv => kv.1 == key)
  · rw [if_pos h]
    simp only [List.any_eq_true, beq_iff_eq] at h
    obtain ⟨kv₀, hkv₀, hkey₀⟩ := h
    simp only [List.map_map, List.mem_map, Function.comp]
    constructor
    · rintro ⟨kv, hkv, hk⟩
      by_cases hc : kv.1 = key
      · right
        simp [hc] at hk
        exact hk.symm
      · left
        refine ⟨kv, hkv, ?_⟩
        simp [hc] at hk
        exact hk
    · rintro (⟨kv, hkv, hk⟩ | hk)
      · by_cases hc : kv.1 = key
        · refine ⟨kv, hkv, ?_⟩
          simp only [hc, beq_self_eq_true, if_true]
          rw [← hc]
          exact hk
        · refine ⟨kv, hkv, ?_⟩
          simp only [hc, beq_iff_eq, if_false, if_neg hc]
          exact hk
      · refine ⟨kv₀, hkv₀, ?_⟩
        simp only [hkey₀, beq_self_eq_true, if_true]
        exact hk.symm
  · rw [if_neg h]
    simp

theorem mem_keys_dictUpdate (d e : List (String × String)) (k : String) :
    k ∈ (dictUpdate d e).map Prod.fst ↔ k ∈ d.map Prod.fst ∨ k ∈ e.map Prod.fst := by
  induction e generalizing d with
  | nil => simp [dictUpdate]
  | cons kv rest ih =>
    show k ∈ (dictUpdate (dictUpsert d kv.1 kv.2) rest).map Prod.fst ↔ _
    rw [ih, mem_keys_dictUpsert]
    simp
    tauto

/-- C10: the claim fails for `to_dict()` because `result.update(self.extra)`
runs last: an `extra` entry keyed `"correlation_id"` puts the key into the
result even though the field itself is the (falsy) empty string, so the key
is not "omitted exactly as if it were absent". -/
theorem C10_counterexample :
    "correlation_id" ∈
      (TraceContext.to_dict
        { trace_id := "t", span_id := "s", correlation_id := some "",
          extra := [("correlation_id", "x")] }).map Prod.fst ∧
    truthy (TraceContext.correlation_id
      { trace_id := "t", span_id := "s", correlation_id := some "",
        extra := [("correlation_id", "x")] }) = false := by
  exact ⟨by decide, by decide⟩

/-- C10 (amended): `headers()` contains the optional keys exactly when the
corresponding field is truthy, so an empty-string field is omitted exactly
as if absent; `to_dict()` behaves the same provided `extra` (merged last)
does not itself supply one of those keys; and an empty-string
`correlation_id` or `session_id` does not survive a headers round trip —
the rebuilt context has `none` there. -/
theorem C10_optional_fields (c : TraceContext) (gt g now : String) :
    (("X-Parent-Span-ID" ∈ c.headers.map Prod.fst) ↔ truthy c.parent_span_id = true) ∧
    (("X-Correlation-ID" ∈ c.headers.map Prod.fst) ↔ truthy c.correlation_id = true) ∧
    (("X-Session-ID" ∈ c.headers.map Prod.fst) ↔ truthy c.session_id = true) ∧
    ((∀ kv ∈ c.extra,
        kv.1 ≠ "parent_span_id" ∧ kv.1 ≠ "correlation_id" ∧ kv.1 ≠ "session_id") →
      ((("parent_span_id" ∈ c.to_dict.map Prod.fst) ↔ truthy c.parent_span_id = true) ∧
       (("correlation_id" ∈ c.to_dict.map Prod.fst) ↔ truthy c.correlation_id = true) ∧
       (("session_id" ∈ c.to_dict.map Prod.fst) ↔ truthy c.session_id = true))) ∧
    (c.correlation_id = some "" →
      (TraceContext.from_headers c.headers gt g now).correlation_id = none) ∧
    (c.session_id = some "" →
      (TraceContext.from_headers c.headers gt g now).session_id = none) := by
  refine ⟨?_, ?_, ?_, fun hex => ?_, fun hco => ?_, fun hse => ?_⟩
  · by_cases hp : truthy c.parent_span_id <;>
      by_cases hc : truthy c.correlation_id <;>
      by_cases hs : truthy c.session_id <;>
      simp [TraceContext.headers, hp, hc, hs]
  · by_cases hp : truthy c.parent_span_id <;>
      by_cases hc : truthy c.correlation_id <;>
      by_cases hs : truthy c.session_id <;>
      simp [TraceContext.headers, hp, hc, hs]
  · by_cases hp : truthy c.parent_span_id <;>
      by_cases hc : truthy c.correlation_id <;>
      by_cases hs : truthy c.session_id <;>
      simp [TraceContext.headers, hp, hc, hs]
  · have hnp : "parent_span_id" ∉ c.extra.map Prod.fst := by
      simp only [List.mem_map]
      rintro ⟨kv, hkv, hk⟩
      exact (hex kv hkv).1 hk
    have hnc : "correlation_id" ∉ c.extra.map Prod.fst := by
      simp only [List.mem_map]
      rintro ⟨kv, hkv, hk⟩
      exact (hex kv hkv).2.1 hk
    have hns : "session_id" ∉ c.extra.map Prod.fst := by
      simp only [List.mem_map]
      rintro ⟨kv, hkv, hk⟩
      exact (hex kv hkv).2.2 hk
    refine ⟨?_, ?_, ?_⟩ <;>
      rw [TraceContext.to_dict, mem_keys_dictUpdate] <;>
      [skip; skip; skip] <;>
      by_cases hp : truthy c.parent_span_id <;>
      by_cases hc : truthy c.correlation_id <;>
      by_cases hs : truthy c.session_id <;>
      simp [hp, hc, hs, hnp, hnc, hns]
  · rw [show (TraceContext.from_headers c.headers gt g now).correlation_id =
        c.headers.lookup "X-Correlation-ID" from rfl, headers_lookup_corr,
      if_neg (by rw [hco]; decide)]
  · rw [show (TraceContext.from_headers c.headers gt g now).session_id =
        c.headers.lookup "X-Session-ID" from rfl, headers_lookup_session,
      if_neg (by rw [hse]; decide)]

theorem C10_optional_fields_witness :
    ("X-Correlation-ID" ∈
        (TraceContext.headers
          { trace_id := "t", span_id := "s", correlation_id := some "co" }).map Prod.fst ↔
      truthy (some "co") = true) ∧
    (("correlation_id" ∈
        (TraceContext.to_dict
          { trace_id := "t", span_id := "s", correlation_id := some "co" }).map Prod.fst) ↔
      truthy (some "co") = true) ∧
    (TraceContext.from_headers
        (TraceContext.headers
          { trace_id := "t", span_id := "s", session_id := some "" })
        "gt" "g" "n").session_id = none := by
  have h := C10_optional_fields
    { trace_id := "t", span_id := "s", correlation_id := some "co" } "gt" "g" "n"
  have h2 := C10_optional_fields
    { trace_id := "t", span_id := "s", session_id := some "" } "gt" "g" "n"
  exact ⟨h.2.1, (h.2.2.2.1 (by decide)).2.1, h2.2.2.2.2.2 rfl⟩

/-! ## Rotating file sink model (`src/microlog/handlers.py`, `_RotatingFileHandler`)

The on-disk state is the set of files belonging to the sink: the active file
`<base>`, uncompressed archives `<base>.i`, and gzip archives `<base>.i.gz`.
File contents are irrelevant to the retention and shifting claims; the active
file's byte size is tracked separately for the rotation trigger. -/

/-- Names of the files a rotating sink can own: the active file, a numbered
backup `<base>.i`, or a gzipped backup `<base>.i.gz`. -/
inductive FName where
  | active
  | bak (i : Nat)
  | bakGz (i : Nat)
  deriving DecidableEq, Repr

/-- The effect of `src.rename(dst)` guarded by `if src.exists():`, with
`dst.unlink()` first when the target exists (overwriting rename). -/
def renameIfExists (src dst : FName) (fs : Finset FName) : Finset FName :=
  if src ∈ fs then insert dst (fs.erase src) else fs

/-- The indices visited by `for i in range(self.backup_count - 1, 0, -1)`:
`[B-1, B-2, ..., 1]`, empty when `B ≤ 1`. -/
def shiftIndices (B : Nat) : List Nat :=
  ((List.range (B - 1)).map (· + 1)).reverse

/-- The backup-shifting loop of `_rotate`: rename `name.i` to `name.{i+1}`
for `i` from `backup_count - 1` down to `1`.  Only bare `name.i` files are
renamed; `.gz` archives are never touched by this loop (this mirrors the
source, where `_get_backup_name(i)` is `f"{self.filename}.{i}"`). -/
def shiftBackups (B : Nat) (fs : Finset FName) : Finset FName :=
  (shiftIndices B).foldl
    (fun fs i => renameIfExists (FName.bak i) (FName.bak (i + 1)) fs) fs

/-- The promotion step of `_rotate`: if the active file exists, either gzip
it to `name.1.gz` and unlink it (compress), or rename it to `name.1`. -/
def promoteActive (compress : Bool) (fs : Finset FName) : Finset FName :=
  if FName.active ∈ fs then
    if compress then insert (FName.bakGz 1) (fs.erase FName.active)
    else insert (FName.bak 1) (fs.erase FName.active)
  else fs

/-- The retention step of `_rotate`: unlink `name.{backup_count}` and
`name.{backup_count}.gz` when they exist. -/
def deleteOldest (B : Nat) (fs : Finset FName) : Finset FName :=
  (fs.erase (FName.bak B)).erase (FName.bakGz B)

/-- `_RotatingFileHandler._rotate`: shift the backups, promote the active
file, delete the oldest backup, and reopen a fresh active file. -/
def rotate (B : Nat) (compress : Bool) (fs : Finset FName) : Finset FName :=
  insert FName.active (deleteOldest B (promoteActive compress (shiftBackups B fs)))

/-- The on-disk file set after `n` rotations of a freshly opened sink (the
initial state holds only the active file). -/
def rotateN (B : Nat) (compress : Bool) (n : Nat) : Finset FName :=
  (rotate B compress)^[n] {FName.active}

/-- Mutable state of the sink used by `emit`: the owned files plus the byte
size of the active file (`self.filename.stat().st_size`). -/
structure SinkState where
  fs : Finset FName
  activeSize : Nat
  deriving DecidableEq

/-- `_RotatingFileHandler._should_rotate`: `False` when `max_bytes <= 0` or
the active file does not exist, else compare the on-disk size of the active
file against `max_bytes`.  The size of the record about to be written plays
no part. -/
def should_rotate (maxBytes : Int) (st : SinkState) : Bool :=
  if maxBytes ≤ 0 then false
  else if FName.active ∉ st.fs then false
  else decide (maxBytes ≤ (st.activeSize : Int))

/-- `_RotatingFileHandler.emit` for one record whose formatted text occupies
`len` bytes: rotate first when `_should_rotate()` says so, then write the
text plus the `"\n"` terminator.  The returned flag records whether rotation
was performed before the write. -/
def emitStep (maxBytes : Int) (B : Nat) (compress : Bool) (st : SinkState)
    (len : Nat) : SinkState × Bool :=
  let rotated := should_rotate maxBytes st
  let st' := if rotated then { fs := rotate B compress st.fs, activeSize := 0 } else st
  ({ fs := insert FName.active st'.fs, activeSize := st'.activeSize + len + 1 }, rotated)

/-! ### C2: retention bound -/

theorem renameIfExists_subset (src dst : FName) (fs X : Finset FName)
    (hfs : fs ⊆ X) (h : dst ∈ X ∨ src ∉ X) : renameIfExists src dst fs ⊆ X := by
  unfold renameIfExists
  by_cases hsrc : src ∈ fs
  · rw [if_pos hsrc]
    rcases h with hdst | hno
    · exact Finset.insert_subset hdst ((Finset.erase_subset _ _).trans hfs)
    · exact absurd (hfs hsrc) hno
  · rw [if_neg hsrc]
    exact hfs

theorem foldl_rename_subset (l : List Nat) (X : Finset FName)
    (h : ∀ i ∈ l, FName.bak (i + 1) ∈ X ∨ FName.bak i ∉ X) :
    ∀ fs, fs ⊆ X →
      (l.foldl (fun fs i => renameIfExists (FName.bak i) (FName.bak (i + 1)) fs) fs) ⊆ X := by
  induction l with
  | nil => exact fun fs hfs => hfs
  | cons j rest ih =>
    intro fs hfs
    exact ih (fun i hi => h i (List.mem_cons_of_mem j hi)) _
      (renameIfExists_subset _ _ fs X hfs (h j (List.mem_cons_self j rest)))

/-- The reachable file shape for an uncompressed sink with backup count `B`:
the active file plus backups `name.1` … `name.B`. -/
def plainShape (B : Nat) : Finset FName :=
  insert FName.active ((Finset.range B).image (fun i => FName.bak (i + 1)))

/-- The reachable file shape for a compressing sink: the active file plus
`name.1.gz` — the shift loop never moves `.gz` archives, so no deeper
compressed archive is ever created. -/
def gzShape : Finset FName :=
  insert FName.active {FName.bakGz 1}

theorem shiftIndices_mem (B i : Nat) (h : i ∈ shiftIndices B) :
    1 ≤ i ∧ i < B := by
  unfold shiftIndices at h
  rw [List.mem_reverse, List.mem_map] at h
  obtain ⟨j, hj, rfl⟩ := h
  rw [List.mem_range] at hj
  omega

theorem rotate_subset_plain (B : Nat) (hB : 1 ≤ B) (fs : Finset FName)
    (hfs : fs ⊆ plainShape B) : rotate B false fs ⊆ plainShape B := by
  have h1 : shiftBackups B fs ⊆ plainShape B := by
    refine foldl_rename_subset _ _ (fun i hi => Or.inl ?_) fs hfs
    obtain ⟨h1i, hiB⟩ := shiftIndices_mem B i hi
    exact Finset.mem_insert_of_mem (Finset.mem_image.mpr ⟨i, Finset.mem_range.mpr hiB, rfl⟩)
  have h2 : promoteActive false (shiftBackups B fs) ⊆ plainShape B := by
    unfold promoteActive
    by_cases ha : FName.active ∈ shiftBackups B fs
    · rw [if_pos ha, if_neg (by simp)]
      refine Finset.insert_subset ?_ ((Finset.erase_subset _ _).trans h1)
      exact Finset.mem_insert_of_mem
        (Finset.mem_image.mpr ⟨0, Finset.mem_range.mpr (by omega), rfl⟩)
    · rw [if_neg ha]
      exact h1
  refine Finset.insert_subset (Finset.mem_insert_self _ _) ?_
  exact ((Finset.erase_subset _ _).trans ((Finset.erase_subset _ _).trans h2))

theorem rotate_subset_gz (B : Nat) (fs : Finset FName)
    (hfs : fs ⊆ gzShape) : rotate B true fs ⊆ gzShape := by
  have h1 : shiftBackups B fs ⊆ gzShape := by
    refine foldl_rename_subset _ _ (fun i hi => Or.inr ?_) fs hfs
    simp [gzShape]
  have h2 : promoteActive true (shiftBackups B fs) ⊆ gzShape := by
    unfold promoteActive
    by_cases ha : FName.active ∈ shiftBackups B fs
    · rw [if_pos ha, if_pos rfl]
      refine Finset.insert_subset ?_ ((Finset.erase_subset _ _).trans h1)
      simp [gzShape]
    · rw [if_neg ha]
      exact h1
  refine Finset.insert_subset (Finset.mem_insert_self _ _) ?_
  exact ((Finset.erase_subset _ _).trans ((Finset.erase_subset _ _).trans h2))

theorem rotateN_subset_plain (B : Nat) (hB : 1 ≤ B) (n : Nat) :
    rotateN B false n ⊆ plainShape B := by
  induction n with
  | zero =>
    intro x hx
    simp [rotateN] at hx
    simp [hx, plainShape]
  | succ n ih =>
    rw [rotateN, Function.iterate_succ_apply']
    exact rotate_subset_plain B hB _ ih

theorem rotateN_subset_gz (B n : Nat) : rotateN B true n ⊆ gzShape := by
  induction n with
  | zero =>
    intro x hx
    simp [rotateN] at hx
    simp [hx, gzShape]
  | succ n ih =>
    rw [rotateN, Function.iterate_succ_apply']
    exact rotate_subset_gz B _ ih

/-- C2: the retention bound fails for `backup_count = 0`.  A rotation still
renames the active file to `name.1` (nothing ever deletes it, since the
"oldest" file computed from the cap is `name.0`), so after one rotation two
files exist where the claim allows `0 + 1 = 1`. -/
theorem C2_counterexample :
    (rotateN 0 false 1).card = 2 ∧ ¬ (rotateN 0 false 1).card ≤ 0 + 1 := by
  decide

/-- C2 (amended): for every `backup_count = B ≥ 1`, with or without
compression, after any number of rotations the sink owns at most `B + 1`
files (active plus archives). -/
theorem C2_retention (B : Nat) (compress : Bool) (n : Nat) (hB : 1 ≤ B) :
    (rotateN B compress n).card ≤ B + 1 := by
  cases compress
  · have h := Finset.card_le_card (rotateN_subset_plain B hB n)
    refine h.trans ((Finset.card_insert_le _ _).trans ?_)
    have : ((Finset.range B).image (fun i => FName.bak (i + 1))).card ≤ B := by
      exact (Finset.card_image_le).trans (by simp)
    omega
  · have h := Finset.card_le_card (rotateN_subset_gz B n)
    refine h.trans ((Finset.card_insert_le _ _).trans ?_)
    have : ({FName.bakGz 1} : Finset FName).card = 1 := rfl
    omega

theorem C2_retention_witness :
    (1 ≤ 3 ∧ (rotateN 3 false 10).card ≤ 3 + 1) ∧ (rotateN 3 true 10).card ≤ 3 + 1 :=
  ⟨⟨by decide, C2_retention 3 false 10 (by decide)⟩, C2_retention 3 true 10 (by decide)⟩

/-! ### C6: rotation trigger -/

/-- C6: the rotation trigger disagrees with the claim.  With
`max_bytes = 10`, an active file of 4 bytes and an incoming record of 20
bytes plus terminator, the claimed condition `4 + 21 > 10` asks for a
rotation, but the source compares only the existing file size (`4 ≥ 10` is
false) and does not rotate. -/
theorem C6_counterexample :
    ¬ (((emitStep 10 3 false { fs := {FName.active}, activeSize := 4 } 20).2 = true) ↔
        ((0:Int) < 10 ∧ (10:Int) < ((4:Nat) : Int) + ((20:Nat) : Int) + 1)) := by
  decide

/-- C6 (amended): rotation is performed before the write exactly when
`max_bytes > 0`, the active file exists, and its current on-disk size is at
least `max_bytes`; the serialized length of the incoming record (terminator
included) plays no role in the decision. -/
theorem C6_rotation_condition (maxBytes : Int) (B : Nat) (compress : Bool)
    (st : SinkState) (len : Nat) :
    ((emitStep maxBytes B compress st len).2 = true ↔
      (0 < maxBytes ∧ FName.active ∈ st.fs ∧ maxBytes ≤ (st.activeSize : Int))) ∧
    (∀ len₂, (emitStep maxBytes B compress st len).2 =
      (emitStep maxBytes B compress st len₂).2) := by
  constructor
  · show should_rotate maxBytes st = true ↔ _
    unfold should_rotate
    by_cases h1 : maxBytes ≤ 0
    · simp only [if_pos h1, Bool.false_eq_true, false_iff]
      rintro ⟨hpos, -, -⟩
      omega
    · by_cases h2 : FName.active ∈ st.fs
      · simp only [if_neg h1, if_neg (not_not_intro h2), decide_eq_true_eq]
        constructor
        · intro hsz
          exact ⟨by omega, h2, hsz⟩
        · rintro ⟨-, -, hsz⟩
          exact hsz
      · simp only [if_neg h1, if_pos h2, Bool.false_eq_true, false_iff]
        rintro ⟨-, hmem, -⟩
        exact h2 hmem
  · intro len₂
    rfl

/-! ### C7: shifting of compressed archives -/

/-- C7: the code contradicts its own documentation.  The shift loop renames
only bare `name.i` files, never `.gz` archives, and the gzip promotion
overwrites `name.1.gz` each time, so with compression enabled and
`backup_count = 3` two rotations leave exactly the active file and
`name.1.gz` on disk — `name.2.gz` (promised by the handler's docstring and
the claim) never exists. -/
theorem C7_gz_not_shifted :
    rotateN 3 true 2 = insert FName.active {FName.bakGz 1} ∧
    FName.bakGz 2 ∉ rotateN 3 true 2 := by
  decide

/-! ## Rate-limit filter model (`src/microlog/filters.py`, `RateLimitFilter`)

The filter's state maps each key (the value of `key_func(record)`) to the
deque of admission timestamps.  Records are modelled as `(key, time)` pairs,
times as rationals.  The `maxlen` bound on the deque never fires because the
filter appends only when the deque holds fewer than `max_per_interval`
entries. -/

/-- State of `RateLimitFilter`: `self._state`, a map from key to the list of
admission timestamps, oldest first (deque front = list head). -/
def RLState : Type := String → List ℚ

/-- The pruning loop of `RateLimitFilter.filter`:
`while timestamps and now - timestamps[0] > self.interval_seconds: popleft()`. -/
def pruneOld (w now : ℚ) : List ℚ → List ℚ
  | [] => []
  | t :: ts => if now - t > w then pruneOld w now ts else t :: ts

/-- One call of `RateLimitFilter.filter` for a record with key `key` at time
`now`: prune the key's deque, reject if it still holds `max_per_interval`
entries, else append `now` and admit. -/
def rlStep (k : Nat) (w : ℚ) (st : RLState) (key : String) (now : ℚ) :
    RLState × Bool :=
  if k ≤ (pruneOld w now (st key)).length then
    (fun κ => if κ = key then pruneOld w now (st key) else st κ, false)
  else
    (fun κ => if κ = key then pruneOld w now (st key) ++ [now] else st κ, true)

/-- The empty initial state (`defaultdict` of empty deques). -/
def rlInit : RLState := fun _ => []

/-- The admit/drop decisions the filter makes on a sequence of records. -/
def rlFlags (k : Nat) (w : ℚ) : RLState → List (String × ℚ) → List Bool
  | _, [] => []
  | st, e :: es =>
      let sk := rlStep k w st e.1 e.2
      sk.2 :: rlFlags k w sk.1 es

/-- Pointwise update of an admitted-times history. -/
def admUpdate (adm : String → List ℚ) (key : String) (l : List ℚ) :
    String → List ℚ :=
  fun κ => if κ = key then l else adm κ

/-- Specification-level step: admit exactly when fewer than `k` previously
admitted records of the same key lie within the last `w` seconds, keeping
the whole admission history (no pruning). -/
def specStep (k : Nat) (w : ℚ) (adm : String → List ℚ) (key : String) (now : ℚ) :
    (String → List ℚ) × Bool :=
  if ((adm key).filter (fun u => decide (now - u ≤ w))).length < k then
    (admUpdate adm key (adm key ++ [now]), true)
  else (adm, false)

/-- Specification-level admit/drop decisions. -/
def specTrace (k : Nat) (w : ℚ) : (String → List ℚ) → List (String × ℚ) → List Bool
  | _, [] => []
  | adm, e :: es =>
      let sk := specStep k w adm e.1 e.2
      sk.2 :: specTrace k w sk.1 es

/-- Refinement invariant tying the filter's pruned deques to the full
admission history: each key's history is sorted, bounded by `lb` (all past
event times are at most `lb`), and pruning the deque at any future time
yields exactly the in-window part of the history. -/
def GoodState (w : ℚ) (st : RLState) (adm : String → List ℚ) (lb : ℚ) : Prop :=
  ∀ κ, (adm κ).Pairwise (· ≤ ·) ∧ (∀ t ∈ adm κ, t ≤ lb) ∧
    ∀ now, lb ≤ now →
      pruneOld w now (st κ) = (adm κ).filter (fun u => decide (now - u ≤ w))

theorem pruneOld_eq_filter (w now : ℚ) :
    ∀ l : List ℚ, l.Pairwise (· ≤ ·) →
      pruneOld w now l = l.filter (fun u => decide (now - u ≤ w)) := by
  intro l hl
  induction l with
  | nil => rfl
  | cons t ts ih =>
    rw [List.pairwise_cons] at hl
    by_cases h : now - t > w
    · rw [pruneOld, if_pos h, List.filter_cons,
        if_neg (by simp; linarith), ih hl.2]
    · rw [pruneOld, if_neg h, List.filter_cons, if_pos (by simp; linarith)]
      have hall : ∀ u ∈ ts, (fun u => decide (now - u ≤ w)) u = true := by
        intro u hu
        have := hl.1 u hu
        simp
        linarith
      rw [List.filter_eq_self.mpr hall]

theorem filter_absorb (p q : ℚ → Bool) (h : ∀ u, q u = true → p u = true) :
    ∀ l : List ℚ, (l.filter p).filter q = l.filter q := by
  intro l
  induction l with
  | nil => rfl
  | cons t ts ih =>
    by_cases hq : q t = true
    · rw [List.filter_cons, if_pos (h t hq), List.filter_cons, if_pos hq,
        List.filter_cons, if_pos hq, ih]
    · by_cases hp : p t = true
      · rw [List.filter_cons, if_pos hp, List.filter_cons, if_neg (by simpa using hq),
          List.filter_cons, if_neg (by simpa using hq), ih]
      · rw [List.filter_cons, if_neg (by simpa using hp),
          List.filter_cons, if_neg (by simpa using hq), ih]

theorem goodState_init (w lb : ℚ) : GoodState w rlInit (fun _ => []) lb := by
  intro κ
  refine ⟨List.Pairwise.nil, by simp, fun now _ => rfl⟩

theorem rlStep_eq_spec (k : Nat) (w : ℚ) (st : RLState) (adm : String → List ℚ)
    (lb : ℚ) (hg : GoodState w st adm lb) (key : String) (now : ℚ) (hnow : lb ≤ now) :
    (rlStep k w st key now).2 = (specStep k w adm key now).2 ∧
    GoodState w (rlStep k w st key now).1 (specStep k w adm key now).1 now := by
  obtain ⟨hsorted, hbound, hprune⟩ := hg key
  have hts : pruneOld w now (st key) = (adm key).filter (fun u => decide (now - u ≤ w)) :=
    hprune now hnow
  by_cases hc : ((adm key).filter (fun u => decide (now - u ≤ w))).length < k
  · have himpl : ¬ k ≤ (pruneOld w now (st key)).length := by
      rw [hts]
      omega
    rw [rlStep, specStep, if_neg himpl, if_pos hc]
    refine ⟨rfl, fun κ => ?_⟩
    dsimp only
    obtain ⟨hsorted', hbound', hprune'⟩ := hg κ
    by_cases hκ : κ = key
    · subst hκ
      refine ⟨?_, ?_, ?_⟩
      · simp only [admUpdate, eq_self_iff_true, if_true]
        rw [List.pairwise_append]
        exact ⟨hsorted, List.pairwise_singleton _ _,
          fun t ht u hu => by
            rw [List.mem_singleton] at hu
            subst hu
            exact (hbound t ht).trans hnow⟩
      · simp only [admUpdate, eq_self_iff_true, if_true]
        intro t ht
        rcases List.mem_append.mp ht with h | h
        · exact (hbound t h).trans hnow
        · rw [List.mem_singleton] at h
          subst h
          exact le_refl _
      · intro now₂ hnow₂
        simp only [admUpdate, eq_self_iff_true, if_true]
        rw [hts]
        have hsortpr :
            ((adm κ).filter (fun u => decide (now - u ≤ w)) ++ [now]).Pairwise (· ≤ ·) := by
          rw [List.pairwise_append]
          exact ⟨hsorted.sublist (List.filter_sublist _),
            List.pairwise_singleton _ _,
            fun t ht u hu => by
              rw [List.mem_singleton] at hu
              subst hu
              exact (hbound t (List.mem_of_mem_filter ht)).trans hnow⟩
        rw [pruneOld_eq_filter w now₂ _ hsortpr, List.filter_append,
          filter_absorb _ _ (fun u hu => by
            simp at hu ⊢
            linarith),
          List.filter_append]
    · simp only [admUpdate, if_neg hκ]
      refine ⟨hsorted', fun t ht => (hbound' t ht).trans hnow, ?_⟩
      intro now₂ hnow₂
      exact hprune' now₂ (hnow.trans hnow₂)
  · have himpl : k ≤ (pruneOld w now (st key)).length := by
      rw [hts]
      omega
    rw [rlStep, specStep, if_pos himpl, if_neg hc]
    refine ⟨rfl, fun κ => ?_⟩
    dsimp only
    obtain ⟨hsorted', hbound', hprune'⟩ := hg κ
    by_cases hκ : κ = key
    · subst hκ
      refine ⟨hsorted', fun t ht => (hbound' t ht).trans hnow, ?_⟩
      intro now₂ hnow₂
      simp only [eq_self_iff_true, if_true]
      rw [hts]
      have hsortpr : ((adm κ).filter (fun u => decide (now - u ≤ w))).Pairwise (· ≤ ·) :=
        hsorted'.sublist (List.filter_sublist _)
      rw [pruneOld_eq_filter w now₂ _ hsortpr,
        filter_absorb _ _ (fun u hu => by
          simp at hu ⊢
          linarith)]
    · refine ⟨hsorted', fun t ht => (hbound' t ht).trans hnow, ?_⟩
      intro now₂ hnow₂
      simp only [if_neg hκ]
      exact hprune' now₂ (hnow.trans hnow₂)

theorem rlFlags_eq_spec (k : Nat) (w : ℚ) :
    ∀ (es : List (String × ℚ)) (st : RLState) (adm : String → List ℚ) (lb : ℚ),
      GoodState w st adm lb → (∀ e ∈ es, lb ≤ e.2) →
      es.Pairwise (fun e₁ e₂ => e₁.2 ≤ e₂.2) →
      rlFlags k w st es = specTrace k w adm es := by
  intro es
  induction es with
  | nil => intro _ _ _ _ _ _; rfl
  | cons e es ih =>
    intro st adm lb hg hlb hpw
    rw [List.pairwise_cons] at hpw
    have hnow : lb ≤ e.2 := hlb e (List.mem_cons_self e es)
    have hstep := rlStep_eq_spec k w st adm lb hg e.1 e.2 hnow
    rw [rlFlags, specTrace, hstep.1]
    rw [ih (rlStep k w st e.1 e.2).1 (specStep k w adm e.1 e.2).1 e.2 hstep.2
      (fun e' he' => hpw.1 e' he') hpw.2]

/-- The admitted-times history after a sequence of records. -/
def specFold (k : Nat) (w : ℚ) : (String → List ℚ) → List (String × ℚ) → (String → List ℚ)
  | adm, [] => adm
  | adm, e :: es => specFold k w (specStep k w adm e.1 e.2).1 es

/-- Times of the admitted records with key `κ` in an annotated trace. -/
def admTimes (κ : String) (tr : List ((String × ℚ) × Bool)) : List ℚ :=
  (tr.filter (fun p => decide (p.1.1 = κ) && p.2)).map (fun p => p.1.2)

/-- Membership test for the closed time window `[a, a + w]`. -/
def winP (a w t : ℚ) : Bool := decide (a ≤ t) && decide (t ≤ a + w)

theorem specTrace_append (k : Nat) (w : ℚ) :
    ∀ (pre rest : List (String × ℚ)) (adm : String → List ℚ),
      specTrace k w adm (pre ++ rest) =
        specTrace k w adm pre ++ specTrace k w (specFold k w adm pre) rest := by
  intro pre
  induction pre with
  | nil => intro rest adm; rfl
  | cons e pre ih =>
    intro rest adm
    rw [List.cons_append, specTrace, specTrace, specFold, List.cons_append, ih]

theorem specTrace_length (k : Nat) (w : ℚ) :
    ∀ (es : List (String × ℚ)) (adm : String → List ℚ),
      (specTrace k w adm es).length = es.length := by
  intro es
  induction es with
  | nil => intro adm; rfl
  | cons e es ih => intro adm; rw [specTrace, List.length_cons, List.length_cons, ih]

theorem specStep_snd (k : Nat) (w : ℚ) (adm : String → List ℚ) (key : String) (now : ℚ) :
    (specStep k w adm key now).2 =
      decide (((adm key).filter (fun u => decide (now - u ≤ w))).length < k) := by
  unfold specStep
  by_cases hc : ((adm key).filter (fun u => decide (now - u ≤ w))).length < k
  · rw [if_pos hc]
    exact (decide_eq_true hc).symm
  · rw [if_neg hc]
    exact (decide_eq_false hc).symm

theorem admTimes_cons (κ : String) (p : (String × ℚ) × Bool)
    (tr : List ((String × ℚ) × Bool)) :
    admTimes κ (p :: tr) =
      if (decide (p.1.1 = κ) && p.2) = true then p.1.2 :: admTimes κ tr
      else admTimes κ tr := by
  unfold admTimes
  rw [List.filter_cons]
  by_cases h : (decide (p.1.1 = κ) && p.2) = true
  · rw [if_pos h, if_pos h, List.map_cons]
  · rw [if_neg h, if_neg h]

theorem specFold_eq (k : Nat) (w : ℚ) :
    ∀ (pre : List (String × ℚ)) (adm : String → List ℚ) (κ : String),
      specFold k w adm pre κ =
        adm κ ++ admTimes κ (pre.zip (specTrace k w adm pre)) := by
  intro pre
  induction pre with
  | nil => intro adm κ; simp [specFold, admTimes]
  | cons e pre ih =>
    intro adm κ
    rw [specFold, ih, specTrace]
    show _ = adm κ ++ admTimes κ ((e, (specStep k w adm e.1 e.2).2) ::
      (pre.zip (specTrace k w (specStep k w adm e.1 e.2).1 pre)))
    rw [admTimes_cons]
    by_cases hkey : e.1 = κ
    · subst hkey
      by_cases hadm : (specStep k w adm e.1 e.2).2 = true
      · rw [if_pos (by simp [hadm])]
        have h1 : (specStep k w adm e.1 e.2).1 e.1 = adm e.1 ++ [e.2] := by
          unfold specStep at hadm ⊢
          by_cases hc : ((adm e.1).filter (fun u => decide (e.2 - u ≤ w))).length < k
          · simp only [if_pos hc]
            rw [admUpdate, if_pos rfl]
          · rw [if_neg hc] at hadm
            exact absurd hadm (by simp)
        rw [h1, List.append_assoc]
        rfl
      · rw [if_neg (by simp [hadm])]
        have h1 : (specStep k w adm e.1 e.2).1 e.1 = adm e.1 := by
          unfold specStep at hadm ⊢
          by_cases hc : ((adm e.1).filter (fun u => decide (e.2 - u ≤ w))).length < k
          · rw [if_pos hc] at hadm
            exact absurd rfl hadm
          · simp only [if_neg hc]
        rw [h1]
    · rw [if_neg (by simp [hkey])]
      have h1 : (specStep k w adm e.1 e.2).1 κ = adm κ := by
        unfold specStep
        by_cases hc : ((adm e.1).filter (fun u => decide (e.2 - u ≤ w))).length < k
        · simp only [if_pos hc]
          rw [admUpdate, if_neg (fun hh => hkey hh.symm)]
        · simp only [if_neg hc]
      rw [h1]

theorem filter_length_mono (p q : ℚ → Bool) (h : ∀ u, p u = true → q u = true) :
    ∀ l : List ℚ, (l.filter p).length ≤ (l.filter q).length := by
  intro l
  induction l with
  | nil => exact le_refl _
  | cons t ts ih =>
    by_cases hp : p t = true
    · rw [List.filter_cons, if_pos hp, List.filter_cons, if_pos (h t hp)]
      simpa using ih
    · rw [List.filter_cons, if_neg (by simpa using hp)]
      by_cases hq : q t = true
      · rw [List.filter_cons, if_pos hq]
        exact ih.trans (by simp)
      · rw [List.filter_cons, if_neg (by simpa using hq)]
        exact ih

theorem admTimes_filter_length (κ : String) (q : ℚ → Bool) :
    ∀ tr : List ((String × ℚ) × Bool),
      ((admTimes κ tr).filter q).length =
        tr.countP (fun p => decide (p.1.1 = κ) && p.2 && q p.1.2) := by
  intro tr
  induction tr with
  | nil => rfl
  | cons p tr ih =>
    rw [admTimes_cons, List.countP_cons]
    by_cases hkey : (decide (p.1.1 = κ) && p.2) = true
    · rw [if_pos hkey, List.filter_cons]
      by_cases hq : q p.1.2 = true
      · rw [if_pos hq, List.length_cons, ih,
          show (decide (p.1.1 = κ) && p.2 && q p.1.2) = true by simp [hkey, hq]]
        rfl
      · rw [if_neg (by simpa using hq), ih,
          show (decide (p.1.1 = κ) && p.2 && q p.1.2) = false by
            rw [hkey, Bool.true_and]
            simpa using hq]
        rfl
    · rw [if_neg hkey, ih,
        show (decide (p.1.1 = κ) && p.2 && q p.1.2) = false by
          rw [Bool.and_eq_false_iff]
          left
          simpa using hkey]
      rfl

theorem spec_window (k : Nat) (w : ℚ) (κ : String) (a : ℚ) :
    ∀ (es : List (String × ℚ)) (adm : String → List ℚ),
      ((adm κ).filter (winP a w)).length ≤ k →
      ((es.zip (specTrace k w adm es)).countP
          (fun p => decide (p.1.1 = κ) && p.2 && winP a w p.1.2))
        + ((adm κ).filter (winP a w)).length ≤ k := by
  intro es
  induction es with
  | nil => intro adm h; simpa using h
  | cons e es ih =>
    intro adm hadm
    rw [specTrace]
    show (((e, (specStep k w adm e.1 e.2).2) :: es.zip _).countP _) + _ ≤ k
    rw [List.countP_cons]
    by_cases hkey : e.1 = κ
    · subst hkey
      by_cases hc : ((adm e.1).filter (fun u => decide (e.2 - u ≤ w))).length < k
      · -- admitted
        have hstep1 : (specStep k w adm e.1 e.2).1 e.1 = adm e.1 ++ [e.2] := by
          unfold specStep
          rw [if_pos hc]
          show admUpdate adm e.1 (adm e.1 ++ [e.2]) e.1 = _
          rw [admUpdate, if_pos rfl]
        have hstep2 : (specStep k w adm e.1 e.2).2 = true := by
          unfold specStep
          rw [if_pos hc]
        by_cases hwin : winP a w e.2 = true
        · -- admission inside the window: the window count grows by one
          have hmon := filter_length_mono (winP a w)
            (fun u => decide (e.2 - u ≤ w))
            (fun u hu => by
              unfold winP at hu hwin
              simp at hu hwin ⊢
              linarith [hu.1, hu.2, hwin.1, hwin.2])
            (adm e.1)
          have hadm' : (((specStep k w adm e.1 e.2).1 e.1).filter (winP a w)).length ≤ k := by
            rw [hstep1, List.filter_append, List.length_append, List.filter_cons]
            rw [if_pos hwin]
            simp only [List.filter_nil, List.length_cons, List.length_nil]
            omega
          have := ih ((specStep k w adm e.1 e.2).1) hadm'
          have hgrow : (((specStep k w adm e.1 e.2).1 e.1).filter (winP a w)).length =
              ((adm e.1).filter (winP a w)).length + 1 := by
            rw [hstep1, List.filter_append, List.length_append, List.filter_cons, if_pos hwin]
            simp
          rw [if_pos (by simp [hstep2, hwin])]
          omega
        · -- admission outside the window: nothing changes for this window
          have hadm' : (((specStep k w adm e.1 e.2).1 e.1).filter (winP a w)).length ≤ k := by
            rw [hstep1, List.filter_append, List.length_append, List.filter_cons,
              if_neg (by simpa using hwin)]
            simpa using hadm
          have := ih ((specStep k w adm e.1 e.2).1) hadm'
          have hsame : (((specStep k w adm e.1 e.2).1 e.1).filter (winP a w)).length =
              ((adm e.1).filter (winP a w)).length := by
            rw [hstep1, List.filter_append, List.length_append, List.filter_cons,
              if_neg (by simpa using hwin)]
            simp
          rw [if_neg (by simp [hwin])]
          omega
      · -- rejected
        have hstep1 : (specStep k w adm e.1 e.2).1 = adm := by
          unfold specStep
          rw [if_neg hc]
        have hstep2 : (specStep k w adm e.1 e.2).2 = false := by
          unfold specStep
          rw [if_neg hc]
        have := ih ((specStep k w adm e.1 e.2).1) (by rw [hstep1]; exact hadm)
        rw [if_neg (by simp [hstep2]), hstep1]
        rw [hstep1] at this
        omega
    · -- other key: this window's count is untouched
      have hstep1 : (specStep k w adm e.1 e.2).1 κ = adm κ := by
        unfold specStep
        by_cases hc : ((adm e.1).filter (fun u => decide (e.2 - u ≤ w))).length < k
        · simp only [if_pos hc]
          rw [admUpdate, if_neg (fun hh => hkey hh.symm)]
        · simp only [if_neg hc]
      have := ih ((specStep k w adm e.1 e.2).1) (by rw [hstep1]; exact hadm)
      rw [hstep1] at this
      rw [if_neg (by simp [hkey])]
      omega

theorem exists_lb (es : List (String × ℚ))
    (hmono : es.Pairwise (fun e₁ e₂ => e₁.2 ≤ e₂.2)) :
    ∃ lb, ∀ e ∈ es, lb ≤ e.2 := by
  cases es with
  | nil => exact ⟨0, by simp⟩
  | cons x xs =>
    refine ⟨x.2, fun e he => ?_⟩
    rcases List.mem_cons.mp he with h | h
    · rw [h]
    · exact (List.pairwise_cons.mp hmono).1 e h

/-- C3: for a rate-limit filter configured with `max_per_interval = k` and
`interval_seconds = w` and any monotone-time sequence of records, (1) at
most `k` records sharing a key are admitted within any closed time window
`[a, a + w]`, and (2) each record is kept exactly when fewer than `k`
previously admitted records of its key lie within the last `w` seconds
(boundary included, matching the strict `>` in the pruning loop). -/
theorem C3_rate_limit (k : Nat) (w : ℚ) (es : List (String × ℚ)) (κ : String) (a : ℚ)
    (hk : 1 ≤ k) (hw : 0 < w)
    (hmono : es.Pairwise (fun e₁ e₂ => e₁.2 ≤ e₂.2)) :
    ((es.zip (rlFlags k w rlInit es)).countP
        (fun p => decide (p.1.1 = κ) && p.2 && winP a w p.1.2)) ≤ k ∧
    (∀ pre e post, es = pre ++ e :: post →
      (rlFlags k w rlInit es).get? pre.length =
        some (decide
          (((pre.zip (rlFlags k w rlInit pre)).countP
              (fun p => decide (p.1.1 = e.1) && p.2 && decide (e.2 - p.1.2 ≤ w))) < k))) := by
  obtain ⟨lb, hlb⟩ := exists_lb es hmono
  have hrefine : rlFlags k w rlInit es = specTrace k w (fun _ => []) es :=
    rlFlags_eq_spec k w es rlInit (fun _ => []) lb (goodState_init w lb) hlb hmono
  constructor
  · rw [hrefine]
    have h0 : (((fun _ => ([] : List ℚ)) κ).filter (winP a w)).length ≤ k := by
      simp
    have := spec_window k w κ a es (fun _ => []) h0
    simpa using this
  · intro pre e post hsplit
    have hpre_sub : pre.Sublist es := by
      rw [hsplit]
      exact (List.sublist_append_left pre (e :: post))
    have hpre_mono : pre.Pairwise (fun e₁ e₂ => e₁.2 ≤ e₂.2) := hmono.sublist hpre_sub
    have hpre_lb : ∀ e' ∈ pre, lb ≤ e'.2 := fun e' he' => hlb e' (hpre_sub.mem he')
    have hrefine_pre : rlFlags k w rlInit pre = specTrace k w (fun _ => []) pre :=
      rlFlags_eq_spec k w pre rlInit (fun _ => []) lb (goodState_init w lb) hpre_lb hpre_mono
    rw [hrefine, hrefine_pre, hsplit, specTrace_append]
    rw [List.get?_append_right (by rw [specTrace_length])]
    rw [specTrace_length]
    simp only [Nat.sub_self]
    rw [specTrace]
    show some (specStep k w (specFold k w (fun _ => []) pre) e.1 e.2).2 = _
    rw [specStep_snd]
    rw [show (specFold k w (fun _ => []) pre) e.1 =
        admTimes e.1 (pre.zip (specTrace k w (fun _ => []) pre)) from by
      rw [specFold_eq]
      simp]
    rw [admTimes_filter_length]

theorem C3_rate_limit_witness :
    ((([("k", (0:ℚ)), ("k", 0), ("k", 0)] : List (String × ℚ)).zip
        (rlFlags 2 1 rlInit [("k", (0:ℚ)), ("k", 0), ("k", 0)])).countP
        (fun p => decide (p.1.1 = "k") && p.2 && winP 0 1 p.1.2)) ≤ 2 ∧
    (rlFlags 2 1 rlInit [("k", (0:ℚ)), ("k", 0), ("k", 0)]).get? 2 =
      some (decide
        (((([("k", (0:ℚ)), ("k", 0)] : List (String × ℚ)).zip
            (rlFlags 2 1 rlInit [("k", (0:ℚ)), ("k", 0)])).countP
            (fun p => decide (p.1.1 = "k") && p.2 &&
              decide (("k", (0:ℚ)).2 - p.1.2 ≤ 1))) < 2)) := by
  have h := C3_rate_limit 2 1 [("k", (0:ℚ)), ("k", 0), ("k", 0)] "k" 0
    (by decide) (by decide) (by decide)
  exact ⟨h.1, h.2 [("k", (0:ℚ)), ("k", 0)] ("k", (0:ℚ)) [] rfl⟩

/-! ## Record and JSON serializer model (`src/microlog/formatter.py`)

Python values reaching the serializer are modelled by `PyValue`; the
`LogRecord` structure carries the standard `logging` attributes (all of which
are in `RESERVED_ATTRS`) plus the user-supplied structured fields, which in
`logging` live as extra attributes in `record.__dict__`. -/

/-- A Python value as handled by `JSONFormatter._serialize_value`. -/
inductive PyValue where
  | pnone
  | pbool (b : Bool)
  | pint (n : Int)
  | pfloat (q : ℚ)
  | str (s : String)
  | list (xs : List PyValue)
  | dict (xs : List (String × PyValue))
  | obj (reprStr : String)

/-- `record.args`: absent, a tuple, or a mapping. -/
inductive PArgs where
  | noArgs
  | tup (xs : List PyValue)
  | dct (xs : List (String × PyValue))

/-- The exception triple carried by `record.exc_info`, with the pieces the
formatter extracts: the type name (`exc_info[0].__name__` or `None`), the
message (`str(exc_info[1])` or `None`), and the rendered traceback
(`self.formatException(record.exc_info)`). -/
structure ExcInfo where
  typeName : Option String
  message : Option String
  traceback : String

/-- The attributes of a `logging.LogRecord` as read by this library: the
standard attributes (every one of them a member of `RESERVED_ATTRS`) and the
user structured fields (`extras`), which `logging` stores as additional
entries of `record.__dict__`.  Percent-interpolation of `msg % args` is not
modelled; no claim under study inspects it. -/
structure LogRecord where
  name : String
  levelname : String
  levelno : Int
  msg : String
  args : PArgs
  pathname : String := ""
  filename : String := ""
  module : String := ""
  exc_info : Option ExcInfo := none
  exc_text : Option String := none
  stack_info : Option String := none
  lineno : Int := 0
  funcName : String := ""
  created : ℚ := 0
  msecs : ℚ := 0
  relativeCreated : ℚ := 0
  thread : Int := 0
  threadName : String := ""
  processName : String := ""
  process : Int := 0
  taskName : Option String := none
  extras : List (String × PyValue) := []

/-- Encoding of an optional string attribute as a Python value. -/
def optStr : Option String → PyValue
  | none => PyValue.pnone
  | some s => PyValue.str s

/-- Encoding of `record.args` as the Python value stored in `__dict__`. -/
def argsValue : PArgs → PyValue
  | .noArgs => PyValue.pnone
  | .tup xs => PyValue.list xs
  | .dct xs => PyValue.dict xs

/-- `record.__dict__.items()`: the standard attributes in creation order
followed by the structured extras. -/
def LogRecord.dictItems (r : LogRecord) : List (String × PyValue) :=
  [("name", .str r.name), ("msg", .str r.msg), ("args", argsValue r.args),
   ("levelname", .str r.levelname), ("levelno", .pint r.levelno),
   ("pathname", .str r.pathname), ("filename", .str r.filename),
   ("module", .str r.module),
   ("exc_info", match r.exc_info with | none => .pnone | some _ => .obj "exc_info"),
   ("exc_text", optStr r.exc_text), ("stack_info", optStr r.stack_info),
   ("lineno", .pint r.lineno), ("funcName", .str r.funcName),
   ("created", .pfloat r.created), ("msecs", .pfloat r.msecs),
   ("relativeCreated", .pfloat r.relativeCreated), ("thread", .pint r.thread),
   ("threadName", .str r.threadName), ("processName", .str r.processName),
   ("process", .pint r.process), ("taskName", optStr r.taskName)]
    ++ r.extras

/-- `JSONFormatter.RESERVED_ATTRS` (formatter.py). -/
def RESERVED_ATTRS : List String :=
  ["name", "msg", "args", "levelname", "levelno", "pathname", "filename",
   "module", "exc_info", "exc_text", "stack_info", "lineno", "funcName",
   "created", "msecs", "relativeCreated", "thread", "threadName",
   "processName", "process", "message", "taskName"]

mutual

/-- `JSONFormatter._serialize_value`: scalars pass through, sequences and
mappings recurse, anything else degrades to its string representation. -/
def serializeValue : PyValue → PyValue
  | .pnone => .pnone
  | .pbool b => .pbool b
  | .pint n => .pint n
  | .pfloat q => .pfloat q
  | .str s => .str s
  | .list xs => .list (serializeValueList xs)
  | .dict xs => .dict (serializeValuePairs xs)
  | .obj reprStr => .str reprStr

/-- Elementwise `_serialize_value` over a sequence. -/
def serializeValueList : List PyValue → List PyValue
  | [] => []
  | v :: vs => serializeValue v :: serializeValueList vs

/-- Valuewise `_serialize_value` over a mapping. -/
def serializeValuePairs : List (String × PyValue) → List (String × PyValue)
  | [] => []
  | kv :: kvs => (kv.1, serializeValue kv.2) :: serializeValuePairs kvs

end

/-- Configuration of `JSONFormatter.__init__`. -/
structure JSONFormatterCfg where
  service_name : Option String := none
  include_extra : Bool := true
  timestamp_format : String := "iso"

/-- The serialization-time clock reading `datetime.now(timezone.utc)` taken
inside `_get_timestamp`, carrying the two renderings the formatter can use
(`isoformat(timespec="microseconds")` and `str(timestamp())`). -/
structure Clock where
  iso : String
  unixStr : String

/-- `JSONFormatter._get_timestamp`: the wall-clock reading taken at
serialization time, rendered per the configured format. -/
def getTimestamp (cfg : JSONFormatterCfg) (now : Clock) : String :=
  if cfg.timestamp_format = "unix" then now.unixStr else now.iso

/-- `log_data[key] = value` on Python's insertion-ordered dictionary:
replace the first entry with that key in place, else append. -/
def jsonUpsert : List (String × PyValue) → String → PyValue → List (String × PyValue)
  | [], key, v => [(key, v)]
  | kv :: rest, key, v =>
      if kv.1 = key then (key, v) :: rest else kv :: jsonUpsert rest key v

/-- `JSONFormatter.format` (formatter.py): mandatory keys first, then every
non-reserved `__dict__` entry (serialized), then the exception object.  The
result models the insertion-ordered dictionary passed to `json.dumps`;
`now` is the wall clock read by `_get_timestamp` during this call. -/
def JSONFormatter.format (cfg : JSONFormatterCfg) (r : LogRecord) (now : Clock) :
    List (String × PyValue) :=
  let base := [("timestamp", PyValue.str (getTimestamp cfg now)),
               ("level", PyValue.str r.levelname),
               ("service", PyValue.str
                 (if truthy cfg.service_name then cfg.service_name.getD "" else r.name)),
               ("message", PyValue.str r.msg)]
  let withExtra :=
    if cfg.include_extra then
      (r.dictItems.filter (fun kv => !(RESERVED_ATTRS.contains kv.1))).foldl
        (fun acc kv => jsonUpsert acc kv.1 (serializeValue kv.2)) base
    else base
  match r.exc_info with
  | some e =>
      jsonUpsert withExtra "exception"
        (.dict [("type", optStr e.typeName), ("message", optStr e.message),
                ("traceback", .str e.traceback)])
  | none => withExtra

theorem lookup_jsonUpsert_ne (k key : String) (v : PyValue) (h : k ≠ key) :
    ∀ d : List (String × PyValue), (jsonUpsert d key v).lookup k = d.lookup k := by
  intro d
  induction d with
  | nil =>
    have hbeq : (k == key) = false := by simp [h]
    show List.lookup k [(key, v)] = List.lookup k []
    simp [List.lookup, hbeq]
  | cons kv rest ih =>
    by_cases hk : kv.1 = key
    · rw [jsonUpsert, if_pos hk]
      show List.lookup k ((key, v) :: rest) = List.lookup k (kv :: rest)
      simp only [List.lookup]
      rw [show (k == key) = false by simp [h],
        show (k == kv.1) = false by simp [hk ▸ h]]
    · rw [jsonUpsert, if_neg hk]
      show List.lookup k (kv :: jsonUpsert rest key v) = List.lookup k (kv :: rest)
      simp only [List.lookup]
      by_cases hkk : k = kv.1
      · rw [show (k == kv.1) = true by simp [hkk]]
      · rw [show (k == kv.1) = false by simp [hkk], ih]

theorem lookup_foldl_upsert_ne (k : String)
    (items : List (String × PyValue)) (h : ∀ kv ∈ items, kv.1 ≠ k) :
    ∀ d : List (String × PyValue),
      (items.foldl (fun acc kv => jsonUpsert acc kv.1 (serializeValue kv.2)) d).lookup k =
        d.lookup k := by
  induction items with
  | nil => intro d; rfl
  | cons kv rest ih =>
    intro d
    rw [List.foldl_cons,
      ih (fun kv' h' => h kv' (List.mem_cons_of_mem kv h')),
      lookup_jsonUpsert_ne k kv.1 _ (fun hh => h kv (List.mem_cons_self kv rest) hh.symm)]

/-- C9: the `timestamp` field emitted by the JSON serializer is the wall
clock read during serialization (`_get_timestamp` calls
`datetime.now(timezone.utc)`), not the record's creation time: the stored
`created` attribute is in `RESERVED_ATTRS`, is never read by `format`, and
changing it does not alter the output at all.  (Hypothesis: no structured
extra is itself named `"timestamp"`, which would shadow the key from the
extras loop.) -/
theorem C9_timestamp (cfg : JSONFormatterCfg) (r : LogRecord) (now : Clock)
    (hshadow : ∀ kv ∈ r.extras, kv.1 ≠ "timestamp") :
    (JSONFormatter.format cfg r now).lookup "timestamp" =
      some (PyValue.str (getTimestamp cfg now)) ∧
    (∀ c₁ c₂ : ℚ,
      JSONFormatter.format cfg { r with created := c₁ } now =
        JSONFormatter.format cfg { r with created := c₂ } now) := by
  constructor
  · unfold JSONFormatter.format
    have hfiltered : ∀ kv ∈ r.dictItems.filter (fun kv => !(RESERVED_ATTRS.contains kv.1)),
        kv.1 ≠ "timestamp" := by
      intro kv hkv
      rw [List.mem_filter] at hkv
      obtain ⟨hmem, hres⟩ := hkv
      rcases List.mem_append.mp hmem with hstd | hext
      · -- every standard attribute survives in RESERVED_ATTRS, so it cannot
        -- pass the filter at all
        exfalso
        have hcontains : RESERVED_ATTRS.contains kv.1 = true := by
          fin_cases hstd <;> rfl
        rw [hcontains] at hres
        exact absurd hres (by decide)
      · exact hshadow kv hext
    have hbase : (([("timestamp", PyValue.str (getTimestamp cfg now)),
        ("level", PyValue.str r.levelname),
        ("service", PyValue.str
          (if truthy cfg.service_name then cfg.service_name.getD "" else r.name)),
        ("message", PyValue.str r.msg)] :
          List (String × PyValue)).lookup "timestamp") =
        some (PyValue.str (getTimestamp cfg now)) := rfl
    cases hexc : r.exc_info with
    | none =>
      by_cases hie : cfg.include_extra = true
      · simp only [hexc, hie, if_true]
        rw [lookup_foldl_upsert_ne _ _ hfiltered]
        exact hbase
      · simp only [hexc, Bool.not_eq_true] at hie ⊢
        simp only [hie, Bool.false_eq_true, if_false]
        exact hbase
    | some e =>
      by_cases hie : cfg.include_extra = true
      · simp only [hexc, hie, if_true]
        rw [lookup_jsonUpsert_ne _ _ _ (by decide),
          lookup_foldl_upsert_ne _ _ hfiltered]
        exact hbase
      · simp only [hexc, Bool.not_eq_true] at hie ⊢
        simp only [hie, Bool.false_eq_true, if_false]
        rw [lookup_jsonUpsert_ne _ _ _ (by decide)]
        exact hbase
  · intro c₁ c₂
    rfl

theorem C9_timestamp_witness :
    (JSONFormatter.format { service_name := some "svc" }
        { name := "lg", levelname := "INFO", levelno := 20, msg := "hello",
          args := PArgs.noArgs, created := 17 }
        { iso := "2024-01-15T14:32:01.123456+00:00", unixStr := "1705329121.123456" }).lookup
      "timestamp" =
      some (PyValue.str
        (getTimestamp { service_name := some "svc" }
          { iso := "2024-01-15T14:32:01.123456+00:00", unixStr := "1705329121.123456" })) :=
  (C9_timestamp { service_name := some "svc" }
    { name := "lg", levelname := "INFO", levelno := 20, msg := "hello",
      args := PArgs.noArgs, created := 17 }
    { iso := "2024-01-15T14:32:01.123456+00:00", unixStr := "1705329121.123456" }
    (by simp)).1

/-! ## Regex engine (the fragment of Python `re` used by `PIIFilter`)

The default PII patterns use character classes, literals, `\b`, alternation
and counted greedy repetition.  `matchCore` is a fueled backtracking matcher
with Python semantics (leftmost alternative preferred, greedy quantifiers
with backtracking); `RMatch` is the declarative semantics used to state what
a replaced segment satisfies.  Unicode character classes are modelled at
their ASCII behavior. -/

/-- Regular expressions: character classes, the word-boundary assertion
`\b`, concatenation, alternation, and counted repetition `{lo,hi}`
(`hi = none` means unbounded; `+` is `rep r 1 none`, `?` is
`rep r 0 (some 1)`). -/
inductive Regex where
  | cls (p : Char → Bool)
  | wordB
  | seq (r₁ r₂ : Regex)
  | alt (r₁ r₂ : Regex)
  | rep (r : Regex) (lo : Nat) (hi : Option Nat)

/-- Decrement of an optional repetition bound. -/
def decrOpt : Option Nat → Option Nat :=
  Option.map (· - 1)

/-- A word character for `\b`, at ASCII behavior: `[a-zA-Z0-9_]`. -/
def isWordChar (c : Char) : Bool := c.isAlphanum || c = '_'

/-- Whether position `i` of `t` is a word boundary (`\b`). -/
def boundaryAt (t : List Char) (i : Nat) : Bool :=
  let prev := if i = 0 then false else
    match t.get? (i - 1) with
    | some c => isWordChar c
    | none => false
  let cur := match t.get? i with
    | some c => isWordChar c
    | none => false
  prev != cur

/-- Fueled backtracking matcher in continuation-passing style.  `k` receives
the position after the part matched so far; alternation prefers the left
branch and repetition is greedy, both with backtracking, as in Python's
`re`.  Fuel only bounds recursion depth; soundness below holds for every
fuel. -/
def matchCore (t : List Char) : Nat → Regex → Nat → (Nat → Option Nat) → Option Nat
  | 0, _, _, _ => none
  | _ + 1, .cls p, i, k =>
      match t.get? i with
      | some c => if p c then k (i + 1) else none
      | none => none
  | _ + 1, .wordB, i, k => if boundaryAt t i then k i else none
  | fuel + 1, .seq r₁ r₂, i, k =>
      matchCore t fuel r₁ i (fun j => matchCore t fuel r₂ j k)
  | fuel + 1, .alt r₁ r₂, i, k =>
      match matchCore t fuel r₁ i k with
      | some res => some res
      | none => matchCore t fuel r₂ i k
  | _ + 1, .rep _ 0 (some 0), i, k => k i
  | fuel + 1, .rep r 0 none, i, k =>
      match matchCore t fuel r i
          (fun j => matchCore t fuel (.rep r 0 none) j k) with
      | some res => some res
      | none => k i
  | fuel + 1, .rep r 0 (some (n + 1)), i, k =>
      match matchCore t fuel r i
          (fun j => matchCore t fuel (.rep r 0 (some n)) j k) with
      | some res => some res
      | none => k i
  | fuel + 1, .rep r (lo + 1) hi, i, k =>
      matchCore t fuel r i (fun j => matchCore t fuel (.rep r lo (decrOpt hi)) j k)

/-- Structural size of a regex, used to pick an adequate fuel. -/
def reSize : Regex → Nat
  | .cls _ => 1
  | .wordB => 1
  | .seq r₁ r₂ => reSize r₁ + reSize r₂ + 1
  | .alt r₁ r₂ => reSize r₁ + reSize r₂ + 1
  | .rep r _ _ => reSize r + 1

/-- Fuel sufficient for the concrete patterns and texts in this file. -/
def matchFuel (t : List Char) (re : Regex) : Nat :=
  (t.length + 1) * (reSize re + 2) + reSize re + 2

/-- The leftmost match attempt at position `i`: the end position of the
match of `re` starting exactly at `i`, if any. -/
def tryMatchAt (t : List Char) (re : Regex) (i : Nat) : Option Nat :=
  matchCore t (matchFuel t re) re i some

/-- Declarative matching semantics: `RMatch t re i j` states that `re`
matches the slice of `t` from position `i` (inclusive) to `j` (exclusive),
with assertions evaluated against the surrounding text. -/
inductive RMatch (t : List Char) : Regex → Nat → Nat → Prop where
  | cls (p : Char → Bool) (i : Nat) (c : Char) :
      t.get? i = some c → p c = true → RMatch t (.cls p) i (i + 1)
  | wordB (i : Nat) : boundaryAt t i = true → RMatch t .wordB i i
  | seq (r₁ r₂ : Regex) (i j l : Nat) :
      RMatch t r₁ i j → RMatch t r₂ j l → RMatch t (.seq r₁ r₂) i l
  | altL (r₁ r₂ : Regex) (i j : Nat) :
      RMatch t r₁ i j → RMatch t (.alt r₁ r₂) i j
  | altR (r₁ r₂ : Regex) (i j : Nat) :
      RMatch t r₂ i j → RMatch t (.alt r₁ r₂) i j
  | repStop (r : Regex) (hi : Option Nat) (i : Nat) : RMatch t (.rep r 0 hi) i i
  | repMore0 (r : Regex) (hi : Option Nat) (i j l : Nat) :
      hi ≠ some 0 → RMatch t r i j → RMatch t (.rep r 0 (decrOpt hi)) j l →
      RMatch t (.rep r 0 hi) i l
  | repMoreS (r : Regex) (lo : Nat) (hi : Option Nat) (i j l : Nat) :
      RMatch t r i j → RMatch t (.rep r lo (decrOpt hi)) j l →
      RMatch t (.rep r (lo + 1) hi) i l

/-- Soundness of the matcher: whatever it reports, at every fuel, is a
genuine match in the declarative semantics, handed to the continuation. -/
theorem matchCore_sound (t : List Char) :
    ∀ (fuel : Nat) (re : Regex) (i : Nat) (k : Nat → Option Nat) (res : Nat),
      matchCore t fuel re i k = some res →
      ∃ j, RMatch t re i j ∧ k j = some res := by
  intro fuel
  induction fuel with
  | zero =>
    intro re i k res h
    exact absurd h (by simp [matchCore])
  | succ fuel ih =>
    intro re i k res h
    cases re with
    | cls p =>
      rw [matchCore] at h
      cases hget : t.get? i with
      | none =>
        rw [hget] at h
        cases h
      | some c =>
        rw [hget] at h
        have h' : (if p c = true then k (i + 1) else none) = some res := h
        by_cases hp : p c = true
        · rw [if_pos hp] at h'
          exact ⟨i + 1, RMatch.cls p i c hget hp, h'⟩
        · rw [if_neg hp] at h'
          cases h'
    | wordB =>
      rw [matchCore] at h
      by_cases hb : boundaryAt t i = true
      · rw [if_pos hb] at h
        exact ⟨i, RMatch.wordB i hb, h⟩
      · rw [if_neg hb] at h
        cases h
    | seq r₁ r₂ =>
      rw [matchCore] at h
      obtain ⟨j₁, hm₁, hk₁⟩ := ih r₁ i _ res h
      obtain ⟨j₂, hm₂, hk₂⟩ := ih r₂ j₁ k res hk₁
      exact ⟨j₂, RMatch.seq r₁ r₂ i j₁ j₂ hm₁ hm₂, hk₂⟩
    | alt r₁ r₂ =>
      rw [matchCore] at h
      cases h₁ : matchCore t fuel r₁ i k with
      | some res₁ =>
        rw [h₁] at h
        have h' : some res₁ = some res := h
        obtain ⟨j, hm, hk⟩ := ih r₁ i k res₁ h₁
        obtain rfl : res₁ = res := Option.some.inj h'
        exact ⟨j, RMatch.altL r₁ r₂ i j hm, hk⟩
      | none =>
        rw [h₁] at h
        have h' : matchCore t fuel r₂ i k = some res := h
        obtain ⟨j, hm, hk⟩ := ih r₂ i k res h'
        exact ⟨j, RMatch.altR r₁ r₂ i j hm, hk⟩
    | rep r lo hi =>
      cases lo with
      | zero =>
        cases hi with
        | none =>
          rw [matchCore] at h
          cases h₁ : matchCore t fuel r i
              (fun j => matchCore t fuel (.rep r 0 none) j k) with
          | some res₁ =>
            rw [h₁] at h
            have h' : some res₁ = some res := h
            obtain ⟨j, hm, hk⟩ := ih r i _ res₁ h₁
            obtain ⟨l, hm₂, hk₂⟩ := ih (.rep r 0 none) j k res₁ hk
            obtain rfl : res₁ = res := Option.some.inj h'
            exact ⟨l, RMatch.repMore0 r none i j l (by simp) hm hm₂, hk₂⟩
          | none =>
            rw [h₁] at h
            have h' : k i = some res := h
            exact ⟨i, RMatch.repStop r none i, h'⟩
        | some n =>
          cases n with
          | zero =>
            rw [matchCore] at h
            exact ⟨i, RMatch.repStop r (some 0) i, h⟩
          | succ n =>
            rw [matchCore] at h
            cases h₁ : matchCore t fuel r i
                (fun j => matchCore t fuel (.rep r 0 (some n)) j k) with
            | some res₁ =>
              rw [h₁] at h
              have h' : some res₁ = some res := h
              obtain ⟨j, hm, hk⟩ := ih r i _ res₁ h₁
              obtain ⟨l, hm₂, hk₂⟩ := ih (.rep r 0 (some n)) j k res₁ hk
              obtain rfl : res₁ = res := Option.some.inj h'
              exact ⟨l, RMatch.repMore0 r (some (n + 1)) i j l (by simp) hm hm₂, hk₂⟩
            | none =>
              rw [h₁] at h
              have h' : k i = some res := h
              exact ⟨i, RMatch.repStop r (some (n + 1)) i, h'⟩
      | succ lo =>
        rw [matchCore] at h
        obtain ⟨j, hm, hk⟩ := ih r i _ res h
        obtain ⟨l, hm₂, hk₂⟩ := ih (.rep r lo (decrOpt hi)) j k res hk
        exact ⟨l, RMatch.repMoreS r lo hi i j l hm hm₂, hk₂⟩

/-- Soundness of the single-position match attempt. -/
theorem tryMatchAt_sound (t : List Char) (re : Regex) (i j : Nat)
    (h : tryMatchAt t re i = some j) : RMatch t re i j := by
  obtain ⟨j', hm, hk⟩ := matchCore_sound t (matchFuel t re) re i some j h
  obtain rfl : j' = j := by
    cases hk
    rfl
  exact hm

/-- The scan of `compiled_pattern.sub(replacement, text)`: at each position
try the leftmost match; on a non-empty match emit the replacement and resume
after the match; on a zero-width match (unreachable for the default
patterns, which all consume at least one character) emit the replacement,
copy the current character and resume at the next position, as Python does;
otherwise copy the character.  Also returns the replaced segments as
`(start, end)` position pairs. -/
def subScan (t : List Char) (re : Regex) (ph : List Char) :
    Nat → Nat → List Char × List (Nat × Nat)
  | 0, _ => ([], [])
  | fuel + 1, i =>
    if h : i < t.length then
      match tryMatchAt t re i with
      | some j =>
        if i < j then
          let rest := subScan t re ph fuel j
          (ph ++ rest.1, (i, j) :: rest.2)
        else
          let rest := subScan t re ph fuel (i + 1)
          (ph ++ t.get ⟨i, h⟩ :: rest.1, (i, j) :: rest.2)
      | none =>
        let rest := subScan t re ph fuel (i + 1)
        (t.get ⟨i, h⟩ :: rest.1, rest.2)
    else ([], [])

/-- `compiled_pattern.sub(replacement, text)`. -/
def pySub (re : Regex) (ph s : String) : String :=
  String.mk (subScan s.toList re ph.toList (s.toList.length + 1) 0).1

/-- Reconstruction of a substitution output from the original text and the
replaced segments: copy the gap up to each segment's start, emit the
placeholder, and resume after the segment (after the current character for
a zero-width segment). -/
def reassemble (t ph : List Char) : Nat → List (Nat × Nat) → List Char
  | i, [] => t.drop i
  | i, s :: segs =>
      ((t.drop i).take (s.1 - i)) ++ ph ++
        (if s.1 < s.2 then reassemble t ph s.2 segs
         else (t.drop s.1).take 1 ++ reassemble t ph (s.1 + 1) segs)

/-- Structure of the substitution scan: every replaced segment starts at or
after the scan position, lies inside the text, and genuinely matches the
pattern in the declarative semantics; segments do not overlap; and with
adequate fuel the output is the original text with exactly those segments
replaced by the placeholder. -/
theorem subScan_spec (t : List Char) (re : Regex) (ph : List Char) :
    ∀ (fuel i : Nat),
      (∀ seg ∈ (subScan t re ph fuel i).2,
        RMatch t re seg.1 seg.2 ∧ i ≤ seg.1 ∧ seg.1 < t.length) ∧
      List.Chain' (fun a b => a.2 ≤ b.1) (subScan t re ph fuel i).2 ∧
      (t.length ≤ fuel + i →
        (subScan t re ph fuel i).1 = reassemble t ph i (subScan t re ph fuel i).2) := by
  intro fuel
  induction fuel with
  | zero =>
    intro i
    refine ⟨by simp [subScan], by simp [subScan], fun hlen => ?_⟩
    show ([] : List Char) = t.drop i
    rw [List.drop_eq_nil_of_le (by omega)]
  | succ fuel ih =>
    intro i
    by_cases h : i < t.length
    · cases hm : tryMatchAt t re i with
      | some j =>
        by_cases hij : i < j
        · -- non-empty match replaced
          have hs : subScan t re ph (fuel + 1) i =
              (ph ++ (subScan t re ph fuel j).1, (i, j) :: (subScan t re ph fuel j).2) := by
            rw [subScan, dif_pos h, hm]
            dsimp only
            rw [if_pos hij]
          obtain ⟨ihseg, ihchain, ihout⟩ := ih j
          refine ⟨?_, ?_, fun hlen => ?_⟩
          · intro seg hseg
            rw [hs] at hseg
            rcases List.mem_cons.mp hseg with rfl | hseg'
            · exact ⟨tryMatchAt_sound t re i j hm, le_refl i, h⟩
            · obtain ⟨hm', hle, hlt⟩ := ihseg seg hseg'
              exact ⟨hm', by omega, hlt⟩
          · rw [hs]
            rw [List.chain'_cons']
            refine ⟨fun b hb => ?_, ihchain⟩
            obtain ⟨-, hle, -⟩ := ihseg b (List.mem_of_mem_head? hb)
            exact hle
          · rw [hs]
            show ph ++ (subScan t re ph fuel j).1 =
              ((t.drop i).take (i - i)) ++ ph ++ _
            rw [Nat.sub_self, List.take_zero, List.nil_append, if_pos hij,
              ihout (by omega)]
        · -- zero-width match (Python: replace, copy one char, advance)
          have hs : subScan t re ph (fuel + 1) i =
              (ph ++ t.get ⟨i, h⟩ :: (subScan t re ph fuel (i + 1)).1,
               (i, j) :: (subScan t re ph fuel (i + 1)).2) := by
            rw [subScan, dif_pos h, hm]
            dsimp only
            rw [if_neg hij]
          obtain ⟨ihseg, ihchain, ihout⟩ := ih (i + 1)
          refine ⟨?_, ?_, fun hlen => ?_⟩
          · intro seg hseg
            rw [hs] at hseg
            rcases List.mem_cons.mp hseg with rfl | hseg'
            · exact ⟨tryMatchAt_sound t re i j hm, le_refl i, h⟩
            · obtain ⟨hm', hle, hlt⟩ := ihseg seg hseg'
              exact ⟨hm', by omega, hlt⟩
          · rw [hs]
            rw [List.chain'_cons']
            refine ⟨fun b hb => ?_, ihchain⟩
            obtain ⟨-, hle, -⟩ := ihseg b (List.mem_of_mem_head? hb)
            omega
          · rw [hs]
            show ph ++ t.get ⟨i, h⟩ :: (subScan t re ph fuel (i + 1)).1 =
              ((t.drop i).take (i - i)) ++ ph ++ _
            rw [Nat.sub_self, List.take_zero, List.nil_append, if_neg hij,
              ihout (by omega), List.drop_eq_getElem_cons h, List.take_cons_succ,
              List.take_zero]
            rfl
      | none =>
        -- no match at this position: the character is copied
        have hs : subScan t re ph (fuel + 1) i =
            (t.get ⟨i, h⟩ :: (subScan t re ph fuel (i + 1)).1,
             (subScan t re ph fuel (i + 1)).2) := by
          rw [subScan, dif_pos h, hm]
        obtain ⟨ihseg, ihchain, ihout⟩ := ih (i + 1)
        refine ⟨?_, ?_, fun hlen => ?_⟩
        · intro seg hseg
          rw [hs] at hseg
          obtain ⟨hm', hle, hlt⟩ := ihseg seg hseg
          exact ⟨hm', by omega, hlt⟩
        · rw [hs]
          exact ihchain
        · rw [hs]
          show t.get ⟨i, h⟩ :: (subScan t re ph fuel (i + 1)).1 =
            reassemble t ph i (subScan t re ph fuel (i + 1)).2
          rw [ihout (by omega)]
          cases hsegs : (subScan t re ph fuel (i + 1)).2 with
          | nil =>
            show t.get ⟨i, h⟩ :: t.drop (i + 1) = t.drop i
            rw [List.drop_eq_getElem_cons h]
            rfl
          | cons s segs =>
            obtain ⟨-, hle, -⟩ := ihseg s (by rw [hsegs]; exact List.mem_cons_self s segs)
            show t.get ⟨i, h⟩ :: (((t.drop (i + 1)).take (s.1 - (i + 1))) ++ ph ++ _) =
              ((t.drop i).take (s.1 - i)) ++ ph ++ _
            rw [List.drop_eq_getElem_cons h,
              show s.1 - i = (s.1 - (i + 1)) + 1 by omega, List.take_cons_succ]
            rfl
    · refine ⟨by simp [subScan, h], by simp [subScan, h], fun hlen => ?_⟩
      rw [subScan, dif_neg h]
      show ([] : List Char) = t.drop i
      rw [List.drop_eq_nil_of_le (by omega)]

/-! ## The default PII patterns (`PIIFilter.DEFAULT_PATTERNS`, filters.py)

Hand translation of the eight default regexes into the `Regex` AST.  `(?i)`
patterns use case-insensitive literals; Unicode classes (`\d`, `\s`, `\S`,
`\b`) are modelled at their ASCII behavior. -/

/-- `\d`. -/
def digitC : Regex := .cls Char.isDigit

/-- A literal character. -/
def lit (c : Char) : Regex := .cls (fun x => x == c)

/-- A case-insensitive literal character (for `(?i)` patterns). -/
def litCI (c : Char) : Regex := .cls (fun x => x.toLower == c.toLower)

/-- `r+`. -/
def rplus (r : Regex) : Regex := .rep r 1 none

/-- `r?`. -/
def ropt (r : Regex) : Regex := .rep r 0 (some 1)

/-- `r{n}`. -/
def rtimes (r : Regex) (n : Nat) : Regex := .rep r n (some n)

/-- `r{n,}`. -/
def ratleast (r : Regex) (n : Nat) : Regex := .rep r n none

/-- `r{m,n}`. -/
def rrange (r : Regex) (m n : Nat) : Regex := .rep r m (some n)

/-- The empty regex (matches the empty slice). -/
def epsR : Regex := .rep .wordB 0 (some 0)

/-- Concatenation of a list of regexes. -/
def seqs : List Regex → Regex
  | [] => epsR
  | r :: rs => rs.foldl Regex.seq r

/-- A case-insensitive literal word. -/
def strCI (s : String) : Regex := seqs (s.toList.map litCI)

/-- `[a-zA-Z0-9._%+-]`. -/
def emailLocalChar (c : Char) : Bool :=
  c.isAlphanum || c == '.' || c == '_' || c == '%' || c == '+' || c == '-'

/-- `[a-zA-Z0-9.-]`. -/
def emailDomainChar (c : Char) : Bool := c.isAlphanum || c == '.' || c == '-'

/-- `[\s:=]`. -/
def pwSepChar (c : Char) : Bool := c.isWhitespace || c == ':' || c == '='

/-- `\S`. -/
def nonSpaceChar (c : Char) : Bool := !c.isWhitespace

/-- `[-.\s]`. -/
def intlSepChar (c : Char) : Bool := c == '-' || c == '.' || c.isWhitespace

/-- `\b[a-zA-Z0-9._%+-]+@[a-zA-Z0-9.-]+\.[a-zA-Z]{2,}\b`. -/
def emailPattern : Regex :=
  seqs [.wordB, rplus (.cls emailLocalChar), lit '@', rplus (.cls emailDomainChar),
        lit '.', ratleast (.cls Char.isAlpha) 2, .wordB]

/-- `\b\d{3}-\d{2}-\d{4}\b`. -/
def ssnPattern : Regex :=
  seqs [.wordB, rtimes digitC 3, lit '-', rtimes digitC 2, lit '-',
        rtimes digitC 4, .wordB]

/-- `[- ]?`. -/
def ccSep : Regex := ropt (.cls (fun c => c == '-' || c == ' '))

/-- `\b\d{4}[- ]?\d{4}[- ]?\d{4}[- ]?\d{4}\b`. -/
def creditCardPattern : Regex :=
  seqs [.wordB, rtimes digitC 4, ccSep, rtimes digitC 4, ccSep,
        rtimes digitC 4, ccSep, rtimes digitC 4, .wordB]

/-- `[-.]?`. -/
def usSep : Regex := ropt (.cls (fun c => c == '-' || c == '.'))

/-- `\b\d{3}[-.]?\d{3}[-.]?\d{4}\b`. -/
def phoneUsPattern : Regex :=
  seqs [.wordB, rtimes digitC 3, usSep, rtimes digitC 3, usSep,
        rtimes digitC 4, .wordB]

/-- `[-.\s]?`. -/
def intlSep : Regex := ropt (.cls intlSepChar)

/-- `\+\d{1,3}[-.\s]?\(?\d{1,4}\)?[-.\s]?\d{1,4}[-.\s]?\d{1,9}`. -/
def phoneIntlPattern : Regex :=
  seqs [lit '+', rrange digitC 1 3, intlSep, ropt (lit '('), rrange digitC 1 4,
        ropt (lit ')'), intlSep, rrange digitC 1 4, intlSep, rrange digitC 1 9]

/-- `\b(?:\d{1,3}\.){3}\d{1,3}\b`. -/
def ipv4Pattern : Regex :=
  seqs [.wordB, rtimes (seqs [rrange digitC 1 3, lit '.']) 3,
        rrange digitC 1 3, .wordB]

/-- `(?i)(password|passwd|pwd)[\s:=]+[\S]+`. -/
def passwordPattern : Regex :=
  seqs [.alt (strCI "password") (.alt (strCI "passwd") (strCI "pwd")),
        rplus (.cls pwSepChar), rplus (.cls nonSpaceChar)]

/-- `(?i)(api[_-]?key|apikey|token)[\s:=]+[\S]+`. -/
def apiKeyPattern : Regex :=
  seqs [.alt (seqs [strCI "api", ropt (.cls (fun c => c == '_' || c == '-')), strCI "key"])
          (.alt (strCI "apikey") (strCI "token")),
        rplus (.cls pwSepChar), rplus (.cls nonSpaceChar)]

/-- `PIIFilter.DEFAULT_PATTERNS`, in dictionary insertion order. -/
def DEFAULT_PATTERNS : List (String × Regex) :=
  [("email", emailPattern), ("ssn", ssnPattern), ("credit_card", creditCardPattern),
   ("phone_us", phoneUsPattern), ("phone_intl", phoneIntlPattern),
   ("ipv4", ipv4Pattern), ("password", passwordPattern), ("api_key", apiKeyPattern)]

/-! ## `PIIFilter` (filters.py) -/

/-- Configuration of `PIIFilter.__init__`.  The default replacement template
is the Python string whose braces are written here as escapes. -/
structure PIIFilterCfg where
  patterns : List (String × Regex) := DEFAULT_PATTERNS
  replacement : String := "[REDACTED_\x7btype\x7d]"
  enabled_patterns : Option (List String) := none

/-- `self._compiled_patterns`: the configured patterns restricted to the
enabled subset (everything when `enabled_patterns` is `None`).  All the
modelled patterns compile, so the `re.error` skip never fires. -/
def compiledPatterns (cfg : PIIFilterCfg) : List (String × Regex) :=
  cfg.patterns.filter (fun p =>
    match cfg.enabled_patterns with
    | none => true
    | some en => en.contains p.1)

/-- `str.replace` on strings, via a fueled scan (Python `str.replace`). -/
def replaceAllAux (pat rep : List Char) : Nat → List Char → List Char
  | 0, s => s
  | _ + 1, [] => []
  | fuel + 1, c :: rest =>
      if pat.isPrefixOf (c :: rest) then
        rep ++ replaceAllAux pat rep fuel ((c :: rest).drop pat.length)
      else c :: replaceAllAux pat rep fuel rest

/-- `s.replace(pat, rep)`. -/
def strReplace (s pat rep : String) : String :=
  String.mk (replaceAllAux pat.toList rep.toList (s.toList.length + 1) s.toList)

/-- `name.upper()` at ASCII behavior. -/
def pyUpper (s : String) : String := String.mk (s.toList.map Char.toUpper)

/-- `self.replacement.replace("{type}", pattern_name.upper())`. -/
def placeholderOf (cfg : PIIFilterCfg) (name : String) : String :=
  strReplace cfg.replacement "\x7btype\x7d" (pyUpper name)

/-- `PIIFilter._mask_pii`: apply every compiled pattern's substitution in
order. -/
def maskPii (cfg : PIIFilterCfg) (text : String) : String :=
  (compiledPatterns cfg).foldl (fun acc p => pySub p.2 (placeholderOf cfg p.1) acc) text

/-- The masking applied to one `args` entry: strings are masked
(`self._mask_pii(str(v)) if isinstance(v, str) else v`), everything else is
untouched. -/
def maskValue (cfg : PIIFilterCfg) : PyValue → PyValue
  | .str s => .str (maskPii cfg s)
  | v => v

/-- The masking `PIIFilter.filter` applies to `record.args`: dictionary
values or tuple elements are masked elementwise; absent (or empty, which
Python skips as falsy — the empty map is a fixed point) args stay as they
are. -/
def maskArgs (cfg : PIIFilterCfg) : PArgs → PArgs
  | .noArgs => .noArgs
  | .tup xs => .tup (xs.map (maskValue cfg))
  | .dct kvs => .dct (kvs.map (fun kv => (kv.1, maskValue cfg kv.2)))

/-- `PIIFilter.filter`: mask `record.msg` and the string-typed entries of
`record.args`, then return `True` unconditionally.  No other record
attribute — in particular no structured extra field — is touched. -/
def piiFilter (cfg : PIIFilterCfg) (r : LogRecord) : LogRecord × Bool :=
  ({ r with msg := maskPii cfg r.msg, args := maskArgs cfg r.args }, true)

/-- C8: the claim fails for structured field values.  Structured fields live
as extra attributes of the record (`record.__dict__`), which the filter
never touches: after filtering, an extra field still holds the raw string
`"john@example.com"`, which the (enabled-by-default) email pattern matches
in full, and which is not the placeholder. -/
theorem C8_counterexample :
    (piiFilter { }
        { name := "lg", levelname := "INFO", levelno := 20,
          msg := "user logged in", args := PArgs.noArgs,
          extras := [("user_email", PyValue.str "john@example.com")] }).1.extras =
      [("user_email", PyValue.str "john@example.com")] ∧
    tryMatchAt "john@example.com".toList emailPattern 0 = some 16 ∧
    "john@example.com" ≠ placeholderOf { } "email" ∧
    (piiFilter { }
        { name := "lg", levelname := "INFO", levelno := 20,
          msg := "user logged in", args := PArgs.noArgs,
          extras := [("user_email", PyValue.str "john@example.com")] }).2 = true := by
  refine ⟨rfl, by decide, by decide, rfl⟩

/-- C8 (amended): the filter always returns true and never drops a record;
it leaves the structured extra fields untouched; it masks the message and
the string-typed `args` entries by applying each enabled pattern's leftmost
non-overlapping substitution, where every replaced segment genuinely
matches the pattern (declarative semantics), replaced segments do not
overlap, and the output is the input with exactly those segments replaced
by the placeholder; the default placeholder for a pattern is
`[REDACTED_<NAME>]` with the pattern name upper-cased. -/
theorem C8_redaction (cfg : PIIFilterCfg) (r : LogRecord) :
    ((piiFilter cfg r).2 = true) ∧
    ((piiFilter cfg r).1.extras = r.extras) ∧
    ((piiFilter cfg r).1.msg = maskPii cfg r.msg) ∧
    (∀ xs, r.args = PArgs.tup xs →
      (piiFilter cfg r).1.args = PArgs.tup (xs.map (maskValue cfg))) ∧
    (∀ kvs, r.args = PArgs.dct kvs →
      (piiFilter cfg r).1.args = PArgs.dct (kvs.map (fun kv => (kv.1, maskValue cfg kv.2)))) ∧
    (∀ (re : Regex) (ph s : String),
      (∀ seg ∈ (subScan s.toList re ph.toList (s.toList.length + 1) 0).2,
        RMatch s.toList re seg.1 seg.2) ∧
      List.Chain' (fun a b => a.2 ≤ b.1)
        (subScan s.toList re ph.toList (s.toList.length + 1) 0).2 ∧
      pySub re ph s = String.mk (reassemble s.toList ph.toList 0
        (subScan s.toList re ph.toList (s.toList.length + 1) 0).2)) ∧
    placeholderOf { } "email" = "[REDACTED_EMAIL]" := by
  refine ⟨rfl, rfl, rfl, ?_, ?_, ?_, by decide⟩
  · intro xs hx
    show maskArgs cfg r.args = _
    rw [hx, maskArgs]
  · intro kvs hk
    show maskArgs cfg r.args = _
    rw [hk, maskArgs]
  · intro re ph s
    obtain ⟨hseg, hchain, hout⟩ := subScan_spec s.toList re ph.toList (s.toList.length + 1) 0
    exact ⟨fun seg hs => (hseg seg hs).1, hchain, by
      rw [pySub, hout (by omega)]⟩

theorem C8_redaction_witness :
    ((piiFilter { }
        { name := "lg", levelname := "INFO", levelno := 20,
          msg := "m", args := PArgs.tup [PyValue.pint 3] }).2 = true) ∧
    (piiFilter { }
        { name := "lg", levelname := "INFO", levelno := 20,
          msg := "m", args := PArgs.tup [PyValue.pint 3] }).1.args =
      PArgs.tup ([PyValue.pint 3].map (maskValue { })) := by
  have h := C8_redaction { }
    { name := "lg", levelname := "INFO", levelno := 20,
      msg := "m", args := PArgs.tup [PyValue.pint 3] }
  exact ⟨h.1, h.2.2.2.1 [PyValue.pint 3] rfl⟩

end Microlog
